import Mathlib

/-!
Verification of the web-ar-screen visual tracking core.

A shallow embedding of the repository's target-recognition pipeline
(`src/tracking/FeatureDetector.js`, `src/tracking/VocabularyTree.js`,
`src/tracking/ImageTracker.js`, `src/config.js`) together with proofs and
refutations of the specified properties.

Modelling conventions:
* Binary descriptors are rows of natural-number bytes (`List Nat`);
  keypoint coordinates, response strengths, matrix entries and scores are
  rationals (`ℚ`), standing in for JS doubles (no property here depends on
  floating-point rounding).
* The native OpenCV primitives the code calls are externals and enter the
  model as explicit parameters: `detectAndCompute` becomes an oracle
  `Nat → List (KeyPoint × Descriptor)` (the library pairs each keypoint
  with one descriptor row), `findHomography` becomes an oracle returning
  `Option MatQ` (`none` = estimation failed / empty matrix).  `BFMatcher`
  with `NORM_HAMMING` is modelled by its contract: the two smallest
  Hamming distances against the target set, ties resolved toward the
  smaller train index.
* JavaScript's stable `Array.prototype.sort` with a numeric comparator is
  modelled by sorting with the corresponding lexicographic order on
  (key, original position); on such a total antisymmetric order the sorted
  permutation is unique, so the choice of sorting algorithm is immaterial
  and we use `List.insertionSort`.
-/

/-! ## Basic data model -/

/-- One row of a binary descriptor matrix (a list of byte values). -/
abbrev Descriptor := List Nat

/-- A 2-D keypoint with a response strength, as used by the detector. -/
structure KeyPoint where
  x : ℚ
  y : ℚ
  response : ℚ
deriving DecidableEq, Repr, Inhabited

/-- Model of `FeatureSet`: keypoints paired with a descriptor matrix, plus the stored
`count` field, exactly the record literal returned by
`FeatureDetector.extractFeatures`. -/
structure FeatureSet where
  keypoints : List KeyPoint
  descriptors : List Descriptor
  count : Nat
deriving DecidableEq, Repr, Inhabited

/-- An oracle standing for the native `detector.detectAndCompute`: images are
opaque tokens, and the library hands back keypoints paired 1:1 with
descriptor rows. -/
abbrev DetectOracle := Nat → List (KeyPoint × Descriptor)

/-! ## extractFeatures / limitFeatures (FeatureDetector.js lines 73–163) -/

/-- The comparator of `responses.sort((a, b) => b.response - a.response)`
on `{index, response}` records: response descending; a JS sort is stable, so
ties keep the original (ascending) index order. -/
def respLe (a b : Nat × ℚ) : Prop :=
  b.2 < a.2 ∨ (a.2 = b.2 ∧ a.1 ≤ b.1)

instance : DecidableRel respLe := fun a b => by
  unfold respLe; infer_instance

instance : IsTotal (Nat × ℚ) respLe where
  total a b := by
    unfold respLe
    rcases lt_trichotomy a.2 b.2 with h | h | h
    · exact Or.inr (Or.inl h)
    · rcases Nat.le_total a.1 b.1 with h1 | h1
      · exact Or.inl (Or.inr ⟨h, h1⟩)
      · exact Or.inr (Or.inr ⟨h.symm, h1⟩)
    · exact Or.inl (Or.inl h)

instance : IsTrans (Nat × ℚ) respLe where
  trans a b c hab hbc := by
    unfold respLe at *
    rcases hab with h1 | ⟨h1, h1'⟩ <;> rcases hbc with h2 | ⟨h2, h2'⟩
    · exact Or.inl (h2.trans h1)
    · exact Or.inl (h2 ▸ h1)
    · exact Or.inl (h1 ▸ h2)
    · exact Or.inr ⟨h1.trans h2, h1'.trans h2'⟩

/-- The `{index, response}` records built by `limitFeatures` from the
keypoint vector. -/
def responsePairs (keypoints : List KeyPoint) : List (Nat × ℚ) :=
  (List.range keypoints.length).map
    (fun i => (i, ((keypoints.getD i default).response)))

/-- Model of `topIndices` of `limitFeatures`: sort records by response descending
(stably), keep the first `maxFeatures` indices, then sort those indices
ascending (`.sort((a, b) => a - b)`). -/
def topIndices (keypoints : List KeyPoint) (maxFeatures : Nat) : List Nat :=
  List.insertionSort (· ≤ ·)
    (((List.insertionSort respLe (responsePairs keypoints)).take
        maxFeatures).map Prod.fst)

/-- Model of `FeatureDetector.limitFeatures`: keep the top `maxFeatures` keypoints by
response and rebuild a trimmed descriptor matrix row by row. -/
def limitFeatures (keypoints : List KeyPoint) (descriptors : List Descriptor)
    (maxFeatures : Nat) : FeatureSet :=
  if keypoints.length ≤ maxFeatures then
    ⟨keypoints, descriptors, keypoints.length⟩
  else
    let idxs := topIndices keypoints maxFeatures
    ⟨idxs.map (fun i => keypoints.getD i default),
     idxs.map (fun i => descriptors.getD i []),
     maxFeatures⟩

/-- Model of `FeatureDetector.extractFeatures`: run detect-and-compute (the oracle),
then cap the feature count at `maxFeatures` via `limitFeatures`. -/
def extractFeatures (det : DetectOracle) (maxFeatures : Nat) (img : Nat) :
    FeatureSet :=
  let kd := det img
  let keypoints := kd.map Prod.fst
  let descriptors := kd.map Prod.snd
  if maxFeatures < keypoints.length then
    limitFeatures keypoints descriptors maxFeatures
  else
    ⟨keypoints, descriptors, keypoints.length⟩

/-! ## matchFeatures (FeatureDetector.js lines 168–199) -/

/-- Structural core of the popcount loop (`while (n) { count += n & 1;
n >>= 1 }`), with an explicit iteration bound: halving a positive number
at least `fuel ≥ n` times always reaches 0. -/
def popcountFuel : Nat → Nat → Nat
  | 0, _ => 0
  | _ + 1, 0 => 0
  | fuel + 1, n + 1 => (n + 1) % 2 + popcountFuel fuel ((n + 1) / 2)

/-- Bit-population count, mirroring `VocabularyTree.popcount` (also the
norm used by `BFMatcher(NORM_HAMMING)`). -/
def popcount (n : Nat) : Nat := popcountFuel n n

/-- Hamming distance between two descriptor rows, byte-wise popcount of the
XOR (descriptor rows of one matrix all share the same width). -/
def hammingDistance (a b : Descriptor) : Nat :=
  ((a.zip b).map (fun p => popcount (Nat.xor p.1 p.2))).sum

/-- BFMatcher orders candidate matches by distance ascending, ties toward
the smaller train index: the lexicographic order on (train index, distance)
pairs with distance as primary key. -/
def distLe (a b : Nat × Nat) : Prop :=
  a.2 < b.2 ∨ (a.2 = b.2 ∧ a.1 ≤ b.1)

instance : DecidableRel distLe := fun a b => by
  unfold distLe; infer_instance

instance : IsTotal (Nat × Nat) distLe where
  total a b := by
    unfold distLe
    rcases Nat.lt_trichotomy a.2 b.2 with h | h | h
    · exact Or.inl (Or.inl h)
    · rcases Nat.le_total a.1 b.1 with h1 | h1
      · exact Or.inl (Or.inr ⟨h, h1⟩)
      · exact Or.inr (Or.inr ⟨h.symm, h1⟩)
    · exact Or.inr (Or.inl h)

instance : IsTrans (Nat × Nat) distLe where
  trans a b c hab hbc := by
    unfold distLe at *
    rcases hab with h1 | ⟨h1, h1'⟩ <;> rcases hbc with h2 | ⟨h2, h2'⟩
    · exact Or.inl (h1.trans h2)
    · exact Or.inl (h2 ▸ h1)
    · exact Or.inl (h1 ▸ h2)
    · exact Or.inr ⟨h1.trans h2, h1'.trans h2'⟩

/-- One entry of the `goodMatches` list: the fields of a `cv.DMatch` the
code reads (`queryIdx`, `trainIdx`, `distance`). -/
structure DMatch where
  queryIdx : Nat
  trainIdx : Nat
  distance : Nat
deriving DecidableEq, Repr

/-- The distances from one query descriptor to every target row. -/
def rowDists (q : Descriptor) (target : List Descriptor) : List Nat :=
  target.map (hammingDistance q)

/-- Model of `knnMatch(…, 2)` for a single query row: candidate (train index,
distance) pairs sorted by distance (ties by index), truncated to `k = 2`. -/
def knn2 (q : Descriptor) (target : List Descriptor) : List (Nat × Nat) :=
  (List.insertionSort distLe (rowDists q target).enum).take 2

/-- Model of `FeatureDetector.matchFeatures`: empty input short-circuits to an empty
good-match list; otherwise each query row's 2-NN pair passes Lowe's ratio
test `m.distance < ratioThreshold * n.distance` (only when the match list
for that row has at least two entries). -/
def matchFeatures (ratioThreshold : ℚ) (frameDescriptors targetDescriptors :
    List Descriptor) : List DMatch :=
  if frameDescriptors.length = 0 ∨ targetDescriptors.length = 0 then []
  else
    (List.range frameDescriptors.length).filterMap fun i =>
      match knn2 (frameDescriptors.getD i []) targetDescriptors with
      | (j₁, d₁) :: (_, d₂) :: _ =>
          if (d₁ : ℚ) < ratioThreshold * (d₂ : ℚ) then
            some ⟨i, j₁, d₁⟩
          else none
      | _ => none

/-! ## Homography (FeatureDetector.js lines 204–320) -/

/-- A native matrix as the homography code observes it: row/column counts
plus the entries read through `doubleAt`/`floatAt`. -/
structure MatQ where
  rows : Nat
  cols : Nat
  data : List (List ℚ)
deriving DecidableEq, Repr

/-- Model of `H.doubleAt(i, j)`. -/
def MatQ.doubleAt (H : MatQ) (i j : Nat) : ℚ :=
  (H.data.getD i []).getD j 0

/-- Model of `FeatureDetector.validateHomography`: reject non-3×3 shapes, a
non-positive diagonal product, and `|h22| < 0.01`. -/
def validateHomography (H : MatQ) : Bool :=
  if H.rows ≠ 3 ∨ H.cols ≠ 3 then false
  else if H.doubleAt 0 0 * H.doubleAt 1 1 * H.doubleAt 2 2 ≤ 0 then false
  else if |H.doubleAt 2 2| < 1 / 100 then false
  else true

/-- Oracle standing for the native `cv.findHomography(src, dst, RANSAC, 5.0)`:
`none` covers both an estimation failure and an empty result matrix. -/
abbrev FindHOracle := List (ℚ × ℚ) → List (ℚ × ℚ) → Option MatQ

/-- Model of `FeatureDetector.computeHomography`: below `minMatches` good
correspondences return `null`; otherwise gather the matched point
coordinates, run the estimator, and keep the result only if it passes
`validateHomography`. -/
def computeHomography (findH : FindHOracle) (minMatches : Nat)
    (frameKeypoints targetKeypoints : List KeyPoint)
    (goodMatches : List DMatch) : Option MatQ :=
  if goodMatches.length < minMatches then none
  else
    match
      findH
        (goodMatches.map fun m =>
          ((targetKeypoints.getD m.trainIdx default).x,
           (targetKeypoints.getD m.trainIdx default).y))
        (goodMatches.map fun m =>
          ((frameKeypoints.getD m.queryIdx default).x,
           (frameKeypoints.getD m.queryIdx default).y))
    with
    | none => none
    | some H => if validateHomography H then some H else none

/-- The frame-space quadrilateral produced by `getTargetCorners`. -/
structure Corners where
  topLeft : ℚ × ℚ
  topRight : ℚ × ℚ
  bottomRight : ℚ × ℚ
  bottomLeft : ℚ × ℚ
deriving DecidableEq, Repr

/-- Model of `cv.perspectiveTransform` applied to a single point: apply `H` and
divide by the projective coordinate. -/
def perspectivePoint (H : MatQ) (x y : ℚ) : ℚ × ℚ :=
  let w := H.doubleAt 2 0 * x + H.doubleAt 2 1 * y + H.doubleAt 2 2
  ((H.doubleAt 0 0 * x + H.doubleAt 0 1 * y + H.doubleAt 0 2) / w,
   (H.doubleAt 1 0 * x + H.doubleAt 1 1 * y + H.doubleAt 1 2) / w)

/-- Model of `FeatureDetector.getTargetCorners`: transform the four pixel-space
corners (0,0), (w,0), (w,h), (0,h) into frame space. -/
def getTargetCorners (H : MatQ) (targetWidth targetHeight : ℚ) : Corners :=
  ⟨perspectivePoint H 0 0,
   perspectivePoint H targetWidth 0,
   perspectivePoint H targetWidth targetHeight,
   perspectivePoint H 0 targetHeight⟩

/-! ## detect (FeatureDetector.js lines 349–426) -/

/-- A registered target as the detector sees it: opaque id and image token,
pixel dimensions, and the optional attached `FeatureSet`. -/
structure Target where
  id : Nat
  width : ℚ
  height : ℚ
  image : Nat
  features : Option FeatureSet
deriving DecidableEq, Repr

/-- The successful-detection record assembled inside `detect`. -/
structure Detection where
  targetId : Nat
  corners : Corners
  matchCount : Nat
  score : ℚ
  homography : MatQ
deriving DecidableEq, Repr

/-- The tagged outcome of `detect`: `success` carries the detection record,
`failure` carries the reason string from the source. -/
inductive DetectionResult where
  | success (d : Detection)
  | failure (reason : String)
deriving DecidableEq, Repr

/-- The homography `detect` obtains for one candidate target: `none` when
the candidate is skipped (no `FeatureSet`, or an empty descriptor matrix)
or when `computeHomography` returns `null`. -/
def candidateHomography (findH : FindHOracle) (minMatches : Nat)
    (ratioThreshold : ℚ) (frameFeatures : FeatureSet) (t : Target) :
    Option MatQ :=
  match t.features with
  | none => none
  | some tf =>
    if tf.descriptors.length = 0 then none
    else
      computeHomography findH minMatches frameFeatures.keypoints tf.keypoints
        (matchFeatures ratioThreshold frameFeatures.descriptors tf.descriptors)

/-- The score `goodMatches.length / target.features.count` computed for a
candidate inside `detect` (0 for a skipped candidate). -/
def candidateScore (ratioThreshold : ℚ) (frameFeatures : FeatureSet)
    (t : Target) : ℚ :=
  match t.features with
  | none => 0
  | some tf =>
    ((matchFeatures ratioThreshold frameFeatures.descriptors
        tf.descriptors).length : ℚ) / (tf.count : ℚ)

/-- The detection record `detect` builds for a winning candidate. -/
def mkDetection (ratioThreshold : ℚ) (frameFeatures : FeatureSet)
    (t : Target) (H : MatQ) : Detection :=
  { targetId := t.id
    corners := getTargetCorners H t.width t.height
    matchCount := (matchFeatures ratioThreshold frameFeatures.descriptors
      ((t.features.getD default).descriptors)).length
    score := candidateScore ratioThreshold frameFeatures t
    homography := H }

/-- The body of `detect`'s candidate loop, threading
`(bestDetection, maxScore)`: skip candidates without features or with an
empty descriptor matrix, compute matches and a homography, and replace the
running best exactly when `score > maxScore`. -/
def detectStep (findH : FindHOracle) (minMatches : Nat) (ratioThreshold : ℚ)
    (frameFeatures : FeatureSet) (acc : Option Detection × ℚ) (t : Target) :
    Option Detection × ℚ :=
  match candidateHomography findH minMatches ratioThreshold frameFeatures t
    with
  | none => acc
  | some H =>
    let score := candidateScore ratioThreshold frameFeatures t
    if acc.2 < score then (some (mkDetection ratioThreshold frameFeatures t H), score)
    else acc

/-- Model of `FeatureDetector.detect` (with `vocabularyQuery` unset, so the candidate
list is the target list passed in): extract frame features once, fail on an
empty frame, otherwise run the candidate loop from `(null, 0)` and report
the best detection or `"No valid detection"`. -/
def detect (det : DetectOracle) (findH : FindHOracle)
    (maxFeatures minMatches : Nat) (ratioThreshold : ℚ) (frame : Nat)
    (targets : List Target) : DetectionResult :=
  let frameFeatures := extractFeatures det maxFeatures frame
  if frameFeatures.count = 0 then .failure ("No frame features")
  else
    match (targets.foldl
        (detectStep findH minMatches ratioThreshold frameFeatures)
        (none, 0)).1 with
    | some d => .success d
    | none => .failure ("No valid detection")

/-! ## VocabularyTree (VocabularyTree.js) -/

/-- Insertion-ordered map, modelling a JS `Map` as an association list:
`set` updates in place when the key exists and appends otherwise. -/
def mapSet (m : List (Nat × α)) (k : Nat) (v : α) : List (Nat × α) :=
  if m.any (fun p => p.1 = k) then
    m.map (fun p => if p.1 = k then (k, v) else p)
  else m ++ [(k, v)]

/-- A bag-of-words vector: insertion-ordered map from word index to count. -/
abbrev Bow := List (Nat × Nat)

/-- Model of `VocabularyTree.findNearestCluster`'s scan (running over the cluster
distances with the loop counter and the running `(nearest, minDist)`;
`none` plays the role of the initial `minDist = Infinity`). -/
def findNearestGo : Nat → Option (Nat × Nat) → List Nat → Nat
  | _, some (j, _), [] => j
  | _, none, [] => 0
  | i, best, d :: ds =>
    match best with
    | none => findNearestGo (i + 1) (some (i, d)) ds
    | some (j, bd) =>
      if d < bd then findNearestGo (i + 1) (some (i, d)) ds
      else findNearestGo (i + 1) (some (j, bd)) ds

/-- Model of `VocabularyTree.findNearestCluster`: index of the first cluster center
at minimal Hamming distance (0 when there are no clusters). -/
def findNearestCluster (d : Descriptor) (clusters : List Descriptor) : Nat :=
  findNearestGo 0 none (clusters.map (hammingDistance d))

/-- JavaScript's `Math.round` on the non-negative values occurring here:
round half up. -/
def roundHalfUp (q : ℚ) : Nat := (⌊q + 1 / 2⌋).toNat

/-- Model of `VocabularyTree.computeMean`: per-coordinate rounded mean of the
assigned descriptors (the code indexes `descriptors[0].length`, so it is
only invoked on a non-empty group; we return `[]` on the empty group the
code would crash on). -/
def computeMean (descriptors : List Descriptor) : Descriptor :=
  match descriptors with
  | [] => []
  | d₀ :: _ =>
    (List.range d₀.length).map fun j =>
      roundHalfUp
        (((descriptors.map (fun d => d.getD j 0)).sum : ℚ) /
          (descriptors.length : ℚ))

/-- One iteration of `kmeansClustering`'s loop: compute all assignments
up front, then replace each center whose assigned group is non-empty by the
group's rounded mean.  (The `for i < k` in the source only ever changes
indices below `clusters.length`, since assignments are nearest-cluster
indices.) -/
def kmeansStep (descriptors : List Descriptor)
    (clusters : List Descriptor) : List Descriptor :=
  let assignments := descriptors.map (fun d => findNearestCluster d clusters)
  clusters.mapIdx fun i c =>
    let assigned := ((descriptors.zip assignments).filterMap
      (fun p => if p.2 = i then some p.1 else none))
    if assigned.isEmpty then c else computeMean assigned

/-- Model of `VocabularyTree.kmeansClustering`: seed the centers with the first
`min(k, pool size)` pool descriptors, then run exactly 10 update passes. -/
def kmeansClustering (descriptors : List Descriptor) (k : Nat) :
    List Descriptor :=
  (kmeansStep descriptors)^[10] (descriptors.take (min k descriptors.length))

/-- Model of `VocabularyTree.computeBagOfWords`: map every descriptor row to its
nearest vocabulary word and histogram the word indices. -/
def computeBagOfWords (vocabulary : List Descriptor)
    (descriptors : List Descriptor) : Bow :=
  descriptors.foldl
    (fun bow d =>
      let wordIdx := findNearestCluster d vocabulary
      mapSet bow wordIdx (((bow.lookup wordIdx).getD 0) + 1))
    []

/-- The state held by a `VocabularyTree` instance. -/
structure VocabSt where
  vocabulary : List Descriptor
  targetFeatures : List (Nat × Bow)
  idf : List (Nat × ℚ)
deriving DecidableEq, Repr

/-- Model of `VocabularyTree.computeIDF`: document frequency per word over the
(possibly stale) `targetFeatures` map, then `idf.set(word, log(N / count))`
onto the existing `idf` map.  `rlog` stands for `Math.log` of the rational
ratio. -/
def computeIDF (rlog : ℚ → ℚ) (targetFeatures : List (Nat × Bow))
    (idf0 : List (Nat × ℚ)) : List (Nat × ℚ) :=
  let n := targetFeatures.length
  let df : List (Nat × Nat) := targetFeatures.foldl
    (fun df p => p.2.foldl
      (fun df wc => mapSet df wc.1 (((df.lookup wc.1).getD 0) + 1)) df)
    []
  df.foldl (fun idf p => mapSet idf p.1 (rlog ((n : ℚ) / (p.2 : ℚ)))) idf0

/-- Descriptor-pool collection at the top of `VocabularyTree.build`. -/
def collectDescriptors (targets : List Target) : List Descriptor :=
  targets.foldl
    (fun acc t =>
      match t.features with
      | some fs => acc ++ fs.descriptors
      | none => acc)
    []

/-- Model of `VocabularyTree.build`: collect every descriptor of every target with a
`FeatureSet`; when the pool is empty leave the state untouched; otherwise
cluster the pool into the vocabulary, recompute each listed target's
bag-of-words entry (onto the existing map — entries of targets no longer
listed are not removed), and recompute IDF. -/
def vocabBuild (rlog : ℚ → ℚ) (vocabSize : Nat) (targets : List Target)
    (st : VocabSt) : VocabSt :=
  let pool := collectDescriptors targets
  if pool.isEmpty then st
  else
    let vocabulary := kmeansClustering pool vocabSize
    let targetFeatures := targets.foldl
      (fun m t =>
        match t.features with
        | some fs => mapSet m t.id (computeBagOfWords vocabulary fs.descriptors)
        | none => m)
      st.targetFeatures
    { vocabulary := vocabulary
      targetFeatures := targetFeatures
      idf := computeIDF rlog targetFeatures st.idf }

/-- The JS stable sort `scores.sort((a, b) => b.score - a.score)`: order by
score descending, ties by original position. -/
def sortScoresDesc (scores : List (Nat × ℚ)) : List (Nat × ℚ) :=
  (List.insertionSort
    (fun a b : Nat × (Nat × ℚ) =>
      b.2.2 < a.2.2 ∨ (a.2.2 = b.2.2 ∧ a.1 ≤ b.1))
    scores.enum).map Prod.snd

/-- Model of `VocabularyTree.query`: empty vocabulary short-circuits to `[]`;
otherwise compute the query bag-of-words, TF-IDF weights (`tf = count /
rows`), score every entry of `targetFeatures` by the weighted dot product,
sort descending and return the top `topCandidates` target ids. -/
def vocabQuery (topCandidates : Nat) (st : VocabSt)
    (queryDescriptors : List Descriptor) : List Nat :=
  if st.vocabulary.length = 0 then []
  else
    let queryBow := computeBagOfWords st.vocabulary queryDescriptors
    let queryTfidf : List (Nat × ℚ) := queryBow.map fun wc =>
      (wc.1, ((wc.2 : ℚ) / (queryDescriptors.length : ℚ)) *
        ((st.idf.lookup wc.1).getD 0))
    let scores : List (Nat × ℚ) := st.targetFeatures.map fun tb =>
      (tb.1, queryTfidf.foldl
        (fun s qw =>
          let targetCount := (tb.2.lookup qw.1).getD 0
          if 0 < targetCount then
            s + qw.2 * ((targetCount : ℚ) * ((st.idf.lookup qw.1).getD 0))
          else s)
        0)
    ((sortScoresDesc scores).take topCandidates).map Prod.fst

/-! ## ImageTracker registry and vocabulary glue (ImageTracker.js) -/

/-- The part of `ImageTracker`'s state that `addTarget` / `removeTarget`
touch: the insertion-ordered target registry and the vocabulary tree. -/
structure TrackerModel where
  targets : List (Nat × Target)
  vocab : VocabSt
deriving DecidableEq, Repr

/-- Model of `ImageTracker.rebuildVocabulary`: a no-op on an empty registry,
otherwise `vocabularyTree.build` on the registry's values. -/
def rebuildVocabulary (rlog : ℚ → ℚ) (vocabSize : Nat) (st : TrackerModel) :
    VocabSt :=
  if st.targets.length = 0 then st.vocab
  else vocabBuild rlog vocabSize (st.targets.map Prod.snd) st.vocab

/-- Model of `ImageTracker.addTarget`: extract and attach a `FeatureSet`, insert the
target into the registry, and rebuild the vocabulary. -/
def addTarget (det : DetectOracle) (maxFeatures : Nat) (rlog : ℚ → ℚ)
    (vocabSize : Nat) (st : TrackerModel) (t : Target) : TrackerModel :=
  let t' := { t with features := some (extractFeatures det maxFeatures t.image) }
  let st' : TrackerModel := { st with targets := mapSet st.targets t.id t' }
  { st' with vocab := rebuildVocabulary rlog vocabSize st' }

/-- Model of `ImageTracker.removeTarget`: delete the registry entry; the vocabulary
tree is not touched. -/
def removeTarget (st : TrackerModel) (targetId : Nat) : TrackerModel :=
  { st with targets := st.targets.eraseP (fun p => p.1 == targetId) }

/-! ## ImageTracker frame loop (ImageTracker.js lines 335–369) -/

/-- The loop-relevant part of `ImageTracker`'s state. -/
structure LoopSt where
  isTracking : Bool
  frameCount : Nat
deriving DecidableEq, Repr

/-- Model of `ImageTracker.start`: set tracking and reset the frame counter. -/
def startTracking (s : LoopSt) : LoopSt :=
  { s with isTracking := true, frameCount := 0 }

/-- One `processFrame` tick: when tracking, increment the frame counter and
invoke `detectTarget` exactly when `frameCount % detectionInterval === 0`.
The returned flag records whether `detectTarget` was invoked. -/
def processFrameTick (detectionInterval : Nat) (s : LoopSt) :
    LoopSt × Bool :=
  if s.isTracking = false then (s, false)
  else
    let fc := s.frameCount + 1
    ({ s with frameCount := fc }, fc % detectionInterval == 0)

/-- The `detectTarget`-invocation flags of `n` consecutive `processFrame`
ticks. -/
def tickFlags (detectionInterval : Nat) (s : LoopSt) : Nat → List Bool
  | 0 => []
  | n + 1 =>
    let (s', f) := processFrameTick detectionInterval s
    f :: tickFlags detectionInterval s' n

/-! ## Configuration (config.js, ImageTracker.updateConfig,
FeatureDetector constructor) -/

/-- The `config.tracking` sub-object (the tunables the claims mention). -/
structure TrackingCfg where
  detectionInterval : Nat
  minMatches : Nat
  ratioThreshold : ℚ
deriving DecidableEq, Repr

/-- The `config.features` sub-object. -/
structure FeaturesCfg where
  detector : String
  maxFeaturesPerFrame : Nat
deriving DecidableEq, Repr

/-- The `config.vocabulary` sub-object. -/
structure VocabularyCfg where
  size : Nat
  topCandidates : Nat
deriving DecidableEq, Repr

/-- The top-level config object. -/
structure Config where
  tracking : TrackingCfg
  features : FeaturesCfg
  vocabulary : VocabularyCfg
deriving DecidableEq, Repr

/-- A patch for `updateConfig`: `Object.assign` overwrites exactly the
top-level keys present in the patch object. -/
structure ConfigPatch where
  tracking : Option TrackingCfg
  features : Option FeaturesCfg
  vocabulary : Option VocabularyCfg
deriving DecidableEq, Repr

/-- Model of `Object.assign(this.config, newConfig)`: shallow top-level merge —
a present key replaces the whole sub-object. -/
def updateConfig (cfg : Config) (p : ConfigPatch) : Config :=
  { tracking := p.tracking.getD cfg.tracking
    features := p.features.getD cfg.features
    vocabulary := p.vocabulary.getD cfg.vocabulary }

/-- What the `FeatureDetector` constructor captures: `this.config =
config.features; this.trackingConfig = config.tracking`.  These are
references to the sub-objects current at construction time; since the only
config mutation in the repository, `updateConfig`'s top-level
`Object.assign`, replaces sub-objects wholesale and never mutates one in
place, a captured reference behaves exactly like the captured value. -/
structure DetectorCapture where
  config : FeaturesCfg
  trackingConfig : TrackingCfg
deriving DecidableEq, Repr

/-- What the `VocabularyTree` constructor captures: `this.config =
config.vocabulary`. -/
structure VocabCapture where
  config : VocabularyCfg
deriving DecidableEq, Repr

/-- The configuration-aliasing state of an initialized `ImageTracker`:
its own live config object plus the sub-objects its components captured. -/
structure TrackerCfgModel where
  config : Config
  detector : DetectorCapture
  vocabTree : VocabCapture
deriving DecidableEq, Repr

/-- Model of `ImageTracker.init`: construct the detector and the vocabulary tree,
each capturing its config sub-object. -/
def initTracker (cfg : Config) : TrackerCfgModel :=
  { config := cfg
    detector := ⟨cfg.features, cfg.tracking⟩
    vocabTree := ⟨cfg.vocabulary⟩ }

/-- Model of `ImageTracker.updateConfig`: merge into the tracker's own config
object; the already-constructed components are untouched and keep the
sub-objects they captured. -/
def trackerUpdateConfig (st : TrackerCfgModel) (p : ConfigPatch) :
    TrackerCfgModel :=
  { st with config := updateConfig st.config p }

/-- The ratio threshold the Feature Detector will use on its next
`matchFeatures` call (`this.trackingConfig.ratioThreshold`). -/
def detectorNextRatioThreshold (st : TrackerCfgModel) : ℚ :=
  st.detector.trackingConfig.ratioThreshold

/-- The vocabulary size the Vocabulary Tree will use on its next `build`
(`this.config.size`). -/
def vocabNextSize (st : TrackerCfgModel) : Nat :=
  st.vocabTree.config.size

/-- The interval the coordinator reads on the next tick
(`this.config.tracking.detectionInterval`, read through the live config). -/
def coordinatorNextInterval (st : TrackerCfgModel) : Nat :=
  st.config.tracking.detectionInterval

/-! ## validateConfig (config.js lines 215–234) and detector init
(FeatureDetector.js lines 20–68) -/

/-- Model of `validateConfig`: the error list accumulated by the source's three
checks. -/
def validateConfig (cfg : Config) : List String :=
  (if cfg.tracking.minMatches < 4 then
    ["tracking.minMatches must be >= 4"] else []) ++
  (if cfg.tracking.ratioThreshold < 1 / 2 ∨ 1 < cfg.tracking.ratioThreshold
    then ["tracking.ratioThreshold must be between 0.5 and 1.0"] else []) ++
  (if cfg.vocabulary.size < 50 then
    ["vocabulary.size must be >= 50"] else [])

/-- The detector-selection switch of `FeatureDetector.init`: three known
algorithm names construct a detector, anything else throws
`Unknown detector`. -/
def initDetector (cfg : Config) : Except String String :=
  if cfg.features.detector = "BRISK" then .ok ("BRISK")
  else if cfg.features.detector = "AKAZE" then .ok ("AKAZE")
  else if cfg.features.detector = "ORB" then .ok ("ORB")
  else .error ("Unknown detector: " ++ cfg.features.detector)

/-! ## Native-resource ledger for `detect` (FeatureDetector.js)

The functions below recompute the pipeline exactly as above while counting
native allocations (`new cv.Mat`, `new cv.KeyPointVector`,
`new cv.DMatchVectorVector`, the `Mat`s produced by `cvtColor`,
`matFromArray`, `findHomography`, `perspectiveTransform`) and explicit
`delete()` calls, on the exception-free control paths.  The counts mirror
the source line by line; the result value is unchanged. -/

/-- Model of `extractFeatures` with its allocation/release ledger.  `channels` is
the channel count of the input image (`gray` is a fresh `Mat` only when it
exceeds 1, and is released on both normal exits). -/
def extractFeaturesLedger (det : DetectOracle) (maxFeatures channels : Nat)
    (img : Nat) : FeatureSet × Nat × Nat :=
  let fs := extractFeatures det maxFeatures img
  let grayAlloc := if 1 < channels then 1 else 0
  if maxFeatures < (det img).length then
    -- limitFeatures allocates the trimmed vectors; the original keypoint
    -- vector, descriptor matrix and `gray` are deleted before returning.
    (fs, 2 + grayAlloc + 2, 2 + grayAlloc)
  else
    (fs, 2 + grayAlloc, grayAlloc)

/-- Model of `matchFeatures` ledger: both the empty-input path and the matching path
hand a fresh `DMatchVectorVector` back to the caller (which `detect`
releases). -/
def matchFeaturesLedger (ratioThreshold : ℚ)
    (frameDescriptors targetDescriptors : List Descriptor) :
    List DMatch × Nat × Nat :=
  (matchFeatures ratioThreshold frameDescriptors targetDescriptors, 1, 0)

/-- Model of `computeHomography` ledger: `srcMat`/`dstMat` are created and deleted;
`findHomography` always hands back a `Mat`, which is deleted when it is
empty or fails validation and returned otherwise. -/
def computeHomographyLedger (findH : FindHOracle) (minMatches : Nat)
    (frameKeypoints targetKeypoints : List KeyPoint)
    (goodMatches : List DMatch) : Option MatQ × Nat × Nat :=
  if goodMatches.length < minMatches then (none, 0, 0)
  else
    let r := computeHomography findH minMatches frameKeypoints
      targetKeypoints goodMatches
    match r with
    | none => (none, 3, 3)
    | some H => (some H, 3, 2)

/-- Model of `getTargetCorners` ledger: the corner `Mat` and the transformed `Mat`
are both created and deleted. -/
def getTargetCornersLedger (H : MatQ) (targetWidth targetHeight : ℚ) :
    Corners × Nat × Nat :=
  (getTargetCorners H targetWidth targetHeight, 2, 2)

/-- The candidate-loop body of `detect` with the ledger threaded through:
`matches.delete()` always runs; a homography that loses the score
comparison is deleted; a homography that becomes the new best replaces the
previous best detection WITHOUT deleting the previous best's homography
(the source has no delete call on that path). -/
def detectStepLedger (findH : FindHOracle) (minMatches : Nat)
    (ratioThreshold : ℚ) (frameFeatures : FeatureSet)
    (acc : (Option Detection × ℚ) × Nat × Nat) (t : Target) :
    (Option Detection × ℚ) × Nat × Nat :=
  match t.features with
  | none => acc
  | some tf =>
    if tf.descriptors.length = 0 then acc
    else
      let mres := matchFeaturesLedger ratioThreshold frameFeatures.descriptors
        tf.descriptors
      let hres := computeHomographyLedger findH minMatches
        frameFeatures.keypoints tf.keypoints mres.1
      -- matches.delete()
      let alloc := acc.2.1 + mres.2.1 + hres.2.1
      let freed := acc.2.2 + mres.2.2 + hres.2.2 + 1
      match hres.1 with
      | none => (acc.1, alloc, freed)
      | some H =>
        let cres := getTargetCornersLedger H t.width t.height
        let alloc := alloc + cres.2.1
        let freed := freed + cres.2.2
        let score := candidateScore ratioThreshold frameFeatures t
        if acc.1.2 < score then
          ((some (mkDetection ratioThreshold frameFeatures t H), score),
            alloc, freed)
        else
          ((acc.1.1, acc.1.2), alloc, freed + 1)

/-- Model of `detect` with the full ledger: the counts of native objects allocated
and released across one call (exception-free paths).  The frame keypoint
vector and descriptor matrix are released on both exits; a successful
result hands exactly one native object (the winning homography) back to
the caller. -/
def detectLedger (det : DetectOracle) (findH : FindHOracle)
    (maxFeatures minMatches channels : Nat) (ratioThreshold : ℚ)
    (frame : Nat) (targets : List Target) :
    DetectionResult × Nat × Nat :=
  let eres := extractFeaturesLedger det maxFeatures channels frame
  let frameFeatures := eres.1
  if frameFeatures.count = 0 then
    (.failure ("No frame features"), eres.2.1, eres.2.2 + 2)
  else
    let fold := targets.foldl
      (detectStepLedger findH minMatches ratioThreshold frameFeatures)
      ((none, 0), eres.2.1, eres.2.2)
    let res := match fold.1.1 with
      | some d => DetectionResult.success d
      | none => .failure ("No valid detection")
    (res, fold.2.1, fold.2.2 + 2)

/-! ## Specification-side order statistics for the ratio test -/

/-- The distances from one query row to the target rows, in ascending
order: the specification's notion of "nearest" and "second-nearest". -/
def sortedRowDists (q : Descriptor) (target : List Descriptor) : List Nat :=
  List.insertionSort (· ≤ ·) (rowDists q target)

/-- The second-nearest distance (the second order statistic of the
distance multiset). -/
def secondDist (q : Descriptor) (target : List Descriptor) : Nat :=
  (sortedRowDists q target).getD 1 0

/-! ## Ghost variant of the nearest-cluster scan

Identical recursion to `findNearestGo`, but also reporting the distance of
the running best; used only to prove the argmin property of
`findNearestCluster`. -/

/-- The nearest-cluster scan together with the distance it achieved. -/
def findNearestGoD : Nat → Option (Nat × Nat) → List Nat → Option (Nat × Nat)
  | _, best, [] => best
  | i, none, d :: ds => findNearestGoD (i + 1) (some (i, d)) ds
  | i, some (j, bd), d :: ds =>
    if d < bd then findNearestGoD (i + 1) (some (i, d)) ds
    else findNearestGoD (i + 1) (some (j, bd)) ds

/-! ## Concrete fixtures for the resource-ledger run -/

/-- A frame whose detector pass yields four identical keypoints carrying
the one-byte descriptor `[0]`. -/
def frameDetTwoTargets : DetectOracle :=
  fun _ => List.replicate 4 (⟨0, 0, 1⟩, [0])

/-- First candidate: three target features, so its score is 4/3. -/
def targetA : Target :=
  ⟨1, 200, 200, 0,
    some ⟨[⟨0, 0, 1⟩, ⟨1, 0, 1⟩, ⟨2, 0, 1⟩], [[0], [255], [255]], 3⟩⟩

/-- Second candidate: two target features, so its score is 2 and it
replaces the first as best detection. -/
def targetB : Target :=
  ⟨2, 200, 200, 0, some ⟨[⟨0, 0, 1⟩, ⟨1, 0, 1⟩], [[0], [255]], 2⟩⟩

/-- The identity homography, which passes `validateHomography`. -/
def idMat : MatQ := ⟨3, 3, [[1, 0, 0], [0, 1, 0], [0, 0, 1]]⟩

/-! ## Helper lemmas -/

/-- Unfolding of `validateHomography = true` into the three checks. -/
theorem validateHomography_eq_true (H : MatQ) :
    validateHomography H = true ↔
      (H.rows = 3 ∧ H.cols = 3 ∧
        0 < H.doubleAt 0 0 * H.doubleAt 1 1 * H.doubleAt 2 2 ∧
        1 / 100 ≤ |H.doubleAt 2 2|) := by
  unfold validateHomography
  split_ifs with h1 h2 h3
  · simp only [Bool.false_eq_true, false_iff]
    rintro ⟨hr, hc, -, -⟩
    exact h1.elim (fun h => h hr) (fun h => h hc)
  · simp only [Bool.false_eq_true, false_iff]
    rintro ⟨-, -, hd, -⟩
    exact absurd h2 (not_le.mpr hd)
  · simp only [Bool.false_eq_true, false_iff]
    rintro ⟨-, -, -, hm⟩
    exact absurd h3 (not_lt.mpr hm)
  · simp only [true_iff]
    rw [not_or] at h1
    exact ⟨not_ne_iff.mp h1.1, not_ne_iff.mp h1.2, not_le.mp h2, not_lt.mp h3⟩

/-- Elements of the sorted prefix are below every element of the sorted
suffix, for any total transitive sorting relation. -/
theorem insertionSort_take_drop_rel {α : Type} {r : α → α → Prop}
    [DecidableRel r] [IsTotal α r] [IsTrans α r] (l : List α) (k : Nat) :
    ∀ a ∈ (List.insertionSort r l).take k,
      ∀ b ∈ (List.insertionSort r l).drop k, r a b := by
  have hs := List.sorted_insertionSort r l
  rw [← List.take_append_drop k (List.insertionSort r l)] at hs
  exact fun a ha b hb => (List.pairwise_append.mp hs).2.2 a ha b hb

/-- The flags of the frame loop started at counter `c`. -/
theorem tickFlags_tracking (interval : Nat) :
    ∀ (n c : Nat),
      tickFlags interval ⟨true, c⟩ n =
        (List.range n).map (fun j => (c + j + 1) % interval == 0)
  | 0, _ => by simp [tickFlags]
  | n + 1, c => by
    have harith : ∀ j : Nat, c + 1 + j + 1 = c + (j + 1) + 1 := by omega
    simp only [tickFlags, processFrameTick, Bool.true_eq_false, if_false,
      List.range_succ_eq_map, List.map_cons, List.map_map]
    congr 1
    rw [tickFlags_tracking interval n (c + 1)]
    exact List.map_congr_left fun j _ => by
      simp only [Function.comp_apply]
      rw [harith j]

/-! ## Claim C4 -/

/-- C4: for every good-match list and configured `minMatches ≥ 4`,
`computeHomography` returns `null` whenever there are fewer than
`minMatches` matches or estimation/validation fails, and any non-null
result is a 3×3 matrix with positive diagonal product and
`|h22| ≥ 0.01` (everything else is rejected by `validateHomography`). -/
theorem computeHomography_spec (findH : FindHOracle) (minMatches : Nat)
    (frameKeypoints targetKeypoints : List KeyPoint)
    (goodMatches : List DMatch) (hmin : 4 ≤ minMatches) :
    (goodMatches.length < minMatches →
      computeHomography findH minMatches frameKeypoints targetKeypoints
        goodMatches = none) ∧
    (∀ H, computeHomography findH minMatches frameKeypoints targetKeypoints
        goodMatches = some H →
      H.rows = 3 ∧ H.cols = 3 ∧
      0 < H.doubleAt 0 0 * H.doubleAt 1 1 * H.doubleAt 2 2 ∧
      1 / 100 ≤ |H.doubleAt 2 2| ∧ validateHomography H = true) := by
  constructor
  · intro h
    unfold computeHomography
    simp [h]
  · intro H hH
    unfold computeHomography at hH
    split_ifs at hH with hlen
    split at hH
    · exact absurd hH (by simp)
    · split_ifs at hH with hv
      obtain rfl : _ = H := Option.some.inj hH
      have hc := (validateHomography_eq_true _).mp hv
      exact ⟨hc.1, hc.2.1, hc.2.2.1, hc.2.2.2, hv⟩

/-- Witness: `computeHomography` with an empty match list and the floor
threshold returns `null`. -/
theorem computeHomography_spec_witness :
    computeHomography (fun _ _ => none) 4 [] [] [] = none :=
  (computeHomography_spec (fun _ _ => none) 4 [] [] [] (by decide)).1
    (by decide)

/-! ## Claim C9 (corrected) -/

/-- C9 counterexample: a configuration with an unknown detector name,
`maxFeaturesPerFrame = 0`, `topCandidates = 0` and `detectionInterval = 0`
sails through `validateConfig` with no error (the unknown name is only
rejected later, by the detector-construction switch). -/
theorem validateConfig_counterexample :
    validateConfig
        { tracking := ⟨0, 12, 8 / 10⟩, features := ⟨"SIFT", 0⟩,
          vocabulary := ⟨200, 0⟩ } = [] ∧
    (({ tracking := ⟨0, 12, 8 / 10⟩, features := ⟨"SIFT", 0⟩,
          vocabulary := ⟨200, 0⟩ } : Config).features.detector ∉
        (["BRISK", "AKAZE", "ORB"] : List String)) ∧
    ({ tracking := ⟨0, 12, 8 / 10⟩, features := ⟨"SIFT", 0⟩,
          vocabulary := ⟨200, 0⟩ } : Config).features.maxFeaturesPerFrame
        ≤ 0 ∧
    ({ tracking := ⟨0, 12, 8 / 10⟩, features := ⟨"SIFT", 0⟩,
          vocabulary := ⟨200, 0⟩ } : Config).vocabulary.topCandidates ≤ 0 ∧
    ({ tracking := ⟨0, 12, 8 / 10⟩, features := ⟨"SIFT", 0⟩,
          vocabulary := ⟨200, 0⟩ } : Config).tracking.detectionInterval
        < 1 :=
  ⟨by norm_num [validateConfig], by decide, by decide, by decide, by decide⟩

/-- C9 amended: `validateConfig` reports an error exactly for
`minMatches < 4`, `ratioThreshold` outside `[0.5, 1.0]`, or
`vocabularySize < 50`; an unknown detector algorithm name is rejected
separately, at detector initialization; `maxFeaturesPerFrame ≤ 0`,
`topCandidates ≤ 0` and `detectionInterval < 1` are not rejected at all. -/
theorem validateConfig_spec (cfg : Config) :
    (validateConfig cfg ≠ [] ↔
      (cfg.tracking.minMatches < 4 ∨ cfg.tracking.ratioThreshold < 1 / 2 ∨
        1 < cfg.tracking.ratioThreshold ∨ cfg.vocabulary.size < 50)) ∧
    ((initDetector cfg).isOk = true ↔
      cfg.features.detector ∈ (["BRISK", "AKAZE", "ORB"] : List String)) := by
  constructor
  · unfold validateConfig
    split_ifs with h1 h2 h3 <;> simp_all <;> tauto
  · unfold initDetector
    split_ifs with h1 h2 h3 <;> simp_all [Except.isOk, Except.toBool]

/-! ## Claim C8 (corrected) -/

/-- C8 counterexample: a patch raising `ratioThreshold` to 0.9 and
shrinking the vocabulary to 150 lands in the tracker's live config, but
the Feature Detector still observes the construction-time 0.7 ratio on its
next operation and the Vocabulary Tree still observes size 200 — the
patched tunables are not seen without reinitialization. -/
theorem updateConfig_counterexample :
    (trackerUpdateConfig
        (initTracker ⟨⟨30, 12, 7 / 10⟩, ⟨"BRISK", 1000⟩, ⟨200, 3⟩⟩)
        ⟨some ⟨30, 12, 9 / 10⟩, none, some ⟨150, 3⟩⟩).config.tracking.ratioThreshold
      = 9 / 10 ∧
    detectorNextRatioThreshold
        (trackerUpdateConfig
          (initTracker ⟨⟨30, 12, 7 / 10⟩, ⟨"BRISK", 1000⟩, ⟨200, 3⟩⟩)
          ⟨some ⟨30, 12, 9 / 10⟩, none, some ⟨150, 3⟩⟩) = 7 / 10 ∧
    vocabNextSize
        (trackerUpdateConfig
          (initTracker ⟨⟨30, 12, 7 / 10⟩, ⟨"BRISK", 1000⟩, ⟨200, 3⟩⟩)
          ⟨some ⟨30, 12, 9 / 10⟩, none, some ⟨150, 3⟩⟩) = 200 ∧
    (7 / 10 : ℚ) ≠ 9 / 10 := by
  refine ⟨rfl, rfl, rfl, by norm_num⟩

/-- C8 amended: `updateConfig` shallow-merges into the coordinator's own
config object, so code reading through it (the frame-sampling interval)
observes the patch on the next tick; but the Feature Detector and the
Vocabulary Tree captured the `features`/`tracking`/`vocabulary`
sub-objects at construction, and a patch replaces those sub-objects
wholesale, so neither component observes patched tunables until it is
reconstructed. -/
theorem updateConfig_live_vs_captured (cfg : Config) (p : ConfigPatch) :
    coordinatorNextInterval (trackerUpdateConfig (initTracker cfg) p) =
      (p.tracking.getD cfg.tracking).detectionInterval ∧
    (trackerUpdateConfig (initTracker cfg) p).detector =
      (initTracker cfg).detector ∧
    (trackerUpdateConfig (initTracker cfg) p).vocabTree =
      (initTracker cfg).vocabTree ∧
    detectorNextRatioThreshold (trackerUpdateConfig (initTracker cfg) p) =
      cfg.tracking.ratioThreshold ∧
    vocabNextSize (trackerUpdateConfig (initTracker cfg) p) =
      cfg.vocabulary.size :=
  ⟨rfl, rfl, rfl, rfl, rfl⟩

/-! ## Claim C6 -/

/-- C6: after `start()` resets the counter, the `k`-th `processFrame` tick
invokes `detectTarget` iff `detectionInterval` divides `k`; with interval
30 over 59 ticks, `detectTarget` fires exactly once, on tick 30. -/
theorem processFrame_interval_spec (interval n k : Nat) (s : LoopSt)
    (h1 : 1 ≤ k) (hk : k ≤ n) :
    ((tickFlags interval (startTracking s) n).getD (k - 1) false = true ↔
      interval ∣ k) ∧
    (tickFlags 30 (startTracking s) 59).count true = 1 ∧
    (tickFlags 30 (startTracking s) 59).getD 29 false = true := by
  have hstart : startTracking s = ⟨true, 0⟩ := rfl
  refine ⟨?_, ?_, ?_⟩
  · rw [hstart, tickFlags_tracking]
    have hkn : k - 1 < n := by omega
    rw [List.getD_eq_getElem _ _ (by simpa using hkn)]
    have hk1 : 0 + (k - 1) + 1 = k := by omega
    simp only [List.getElem_map, List.getElem_range, hk1, beq_iff_eq]
    exact Nat.dvd_iff_mod_eq_zero.symm
  · rw [hstart]
    decide
  · rw [hstart]
    decide

/-- Witness: the interval-divisibility reading of tick 30 with interval 30
across 59 ticks. -/
theorem processFrame_interval_spec_witness :
    ((tickFlags 30 (startTracking ⟨false, 7⟩) 59).getD (30 - 1) false = true ↔
      30 ∣ 30) ∧
    (tickFlags 30 (startTracking ⟨false, 7⟩) 59).count true = 1 ∧
    (tickFlags 30 (startTracking ⟨false, 7⟩) 59).getD 29 false = true :=
  processFrame_interval_spec 30 59 30 ⟨false, 7⟩ (by decide) (by decide)

/-- Membership characterization of the `{index, response}` records. -/
theorem mem_responsePairs {kps : List KeyPoint} {p : Nat × ℚ} :
    p ∈ responsePairs kps ↔
      p.1 < kps.length ∧ p.2 = (kps.getD p.1 default).response := by
  unfold responsePairs
  simp only [List.mem_map, List.mem_range]
  constructor
  · rintro ⟨i, hi, rfl⟩
    exact ⟨hi, rfl⟩
  · rintro ⟨h1, h2⟩
    exact ⟨p.1, h1, by rw [← h2]⟩

/-- Properties of `topIndices`: there are exactly `maxFeatures` of them, and
each retained index dominates every discarded index — strictly larger
response, or an equal response with a smaller original index. -/
theorem topIndices_dominates (kps : List KeyPoint) (maxF : Nat)
    (hlt : maxF < kps.length) :
    (topIndices kps maxF).length = maxF ∧
    ∀ i ∈ topIndices kps maxF,
      i < kps.length ∧
      ∀ j < kps.length, j ∉ topIndices kps maxF →
        ((kps.getD j default).response < (kps.getD i default).response ∨
          ((kps.getD j default).response = (kps.getD i default).response ∧
            i < j)) := by
  have hplen : (responsePairs kps).length = kps.length := by
    unfold responsePairs
    simp
  have hslen :
      (List.insertionSort respLe (responsePairs kps)).length = kps.length := by
    rw [List.length_insertionSort, hplen]
  have hmem_top : ∀ {i : Nat},
      i ∈ topIndices kps maxF ↔
        i ∈ ((List.insertionSort respLe (responsePairs kps)).take maxF).map
          Prod.fst := by
    intro i
    unfold topIndices
    exact (List.perm_insertionSort _ _).mem_iff
  have hlen_top : (topIndices kps maxF).length = maxF := by
    unfold topIndices
    rw [List.length_insertionSort, List.length_map,
      List.length_take_of_le (by rw [hslen]; omega)]
  refine ⟨hlen_top, fun i hi => ?_⟩
  obtain ⟨p, hp_take, hp_fst⟩ := List.mem_map.mp (hmem_top.mp hi)
  have hp_pairs : p ∈ responsePairs kps :=
    (List.perm_insertionSort respLe _).subset (List.mem_of_mem_take hp_take)
  obtain ⟨hp_lt, hp_resp⟩ := mem_responsePairs.mp hp_pairs
  refine ⟨hp_fst ▸ hp_lt, fun j hj hjnot => ?_⟩
  have hqj : (j, (kps.getD j default).response) ∈ responsePairs kps :=
    mem_responsePairs.mpr ⟨hj, rfl⟩
  have hqs : (j, (kps.getD j default).response) ∈
      List.insertionSort respLe (responsePairs kps) :=
    (List.perm_insertionSort respLe _).symm.subset hqj
  have hsplit : (j, (kps.getD j default).response) ∈
      (List.insertionSort respLe (responsePairs kps)).take maxF ++
        (List.insertionSort respLe (responsePairs kps)).drop maxF := by
    rw [List.take_append_drop]
    exact hqs
  have hqdrop : (j, (kps.getD j default).response) ∈
      (List.insertionSort respLe (responsePairs kps)).drop maxF := by
    rcases List.mem_append.mp hsplit with hq | hq
    · exact absurd
        ((hmem_top (i := j)).mpr (List.mem_map.mpr
          ⟨(j, (kps.getD j default).response), hq, rfl⟩)) hjnot
    · exact hq
  have hp_eq : p = (i, (kps.getD i default).response) := by
    obtain ⟨p1, p2⟩ := p
    simp only at hp_fst hp_resp
    subst hp_fst
    rw [hp_resp]
  have hrel := insertionSort_take_drop_rel (r := respLe)
    (responsePairs kps) maxF p hp_take _ hqdrop
  rw [hp_eq] at hrel
  simp only [respLe] at hrel
  have hij : i ≠ j := fun hij => hjnot (hij ▸ hi)
  rcases hrel with hcase | ⟨heq, hle⟩
  · exact Or.inl hcase
  · exact Or.inr ⟨heq.symm, lt_of_le_of_ne hle hij⟩

/-! ## Claim C2 -/

/-- C2: when the detector pass yields `N` keypoints, `extractFeatures`
returns count `N` for `N ≤ maxFeaturesPerFrame`; otherwise it returns
exactly `maxFeaturesPerFrame` keypoints and each retained keypoint's
response dominates every discarded keypoint's response (stable sort by
response descending, ties broken by the original index); in every case the
descriptor matrix has exactly as many rows as there are keypoints. -/
theorem extractFeatures_spec (det : DetectOracle) (maxF img : Nat) :
    ((det img).length ≤ maxF →
      (extractFeatures det maxF img).count = (det img).length) ∧
    (maxF < (det img).length →
      (extractFeatures det maxF img).count = maxF ∧
      (extractFeatures det maxF img).keypoints =
        (topIndices ((det img).map Prod.fst) maxF).map
          (fun i => (((det img).map Prod.fst).getD i default)) ∧
      ∀ i ∈ topIndices ((det img).map Prod.fst) maxF,
        ∀ j < (det img).length,
          j ∉ topIndices ((det img).map Prod.fst) maxF →
          ((((det img).map Prod.fst).getD j default).response <
              (((det img).map Prod.fst).getD i default).response ∨
            ((((det img).map Prod.fst).getD j default).response =
                (((det img).map Prod.fst).getD i default).response ∧
              i < j))) ∧
    (extractFeatures det maxF img).descriptors.length =
      (extractFeatures det maxF img).keypoints.length ∧
    (extractFeatures det maxF img).count =
      (extractFeatures det maxF img).keypoints.length := by
  have hklen : ((det img).map Prod.fst).length = (det img).length :=
    List.length_map _ _
  by_cases hcap : maxF < ((det img).map Prod.fst).length
  · have hcap' : maxF < (det img).length := by rwa [hklen] at hcap
    have hlim : extractFeatures det maxF img =
        limitFeatures ((det img).map Prod.fst) ((det img).map Prod.snd)
          maxF := by
      unfold extractFeatures
      rw [if_pos hcap]
    have hlim2 : limitFeatures ((det img).map Prod.fst)
        ((det img).map Prod.snd) maxF =
        ⟨(topIndices ((det img).map Prod.fst) maxF).map
            (fun i => (((det img).map Prod.fst).getD i default)),
          (topIndices ((det img).map Prod.fst) maxF).map
            (fun i => (((det img).map Prod.snd).getD i [])),
          maxF⟩ := by
      unfold limitFeatures
      rw [if_neg (by omega)]
    obtain ⟨hlen_top, hdom⟩ :=
      topIndices_dominates ((det img).map Prod.fst) maxF hcap
    refine ⟨fun h => absurd h (by omega), fun _ => ?_, ?_, ?_⟩
    · rw [hlim, hlim2]
      refine ⟨rfl, rfl, fun i hi j hj hjn => ?_⟩
      exact (hdom i hi).2 j (by rwa [hklen]) hjn
    · rw [hlim, hlim2]
      simp
    · rw [hlim, hlim2]
      simp [hlen_top]
  · have hplain : extractFeatures det maxF img =
        ⟨(det img).map Prod.fst, (det img).map Prod.snd,
          ((det img).map Prod.fst).length⟩ := by
      unfold extractFeatures
      rw [if_neg hcap]
    refine ⟨fun _ => ?_, fun h => absurd h (by omega), ?_, ?_⟩
    · rw [hplain]
      exact hklen
    · rw [hplain]
      simp
    · rw [hplain]

/-- Witness: a three-keypoint image capped at two features keeps the two
strongest responses. -/
theorem extractFeatures_spec_witness :
    (extractFeatures
        (fun _ => [(⟨0, 0, 1⟩, [0]), (⟨1, 0, 5⟩, [1]), (⟨2, 0, 3⟩, [2])])
        2 0).count = 2 ∧
    (extractFeatures
        (fun _ => [(⟨0, 0, 1⟩, [0]), (⟨1, 0, 5⟩, [1]), (⟨2, 0, 3⟩, [2])])
        5 0).count = 3 := by
  have h2 := extractFeatures_spec
    (fun _ => [(⟨0, 0, 1⟩, [0]), (⟨1, 0, 5⟩, [1]), (⟨2, 0, 3⟩, [2])]) 2 0
  have h5 := extractFeatures_spec
    (fun _ => [(⟨0, 0, 1⟩, [0]), (⟨1, 0, 5⟩, [1]), (⟨2, 0, 3⟩, [2])]) 5 0
  exact ⟨(h2.2.1 (by norm_num)).1, h5.1 (by norm_num)⟩


/-- Projecting the distance components of the BFMatcher ordering yields the
ascending distance sort. -/
theorem map_snd_insertionSort_distLe (l : List Nat) :
    (List.insertionSort distLe l.enum).map Prod.snd =
      List.insertionSort (· ≤ ·) l := by
  apply List.eq_of_perm_of_sorted (r := fun a b : Nat => a ≤ b)
  · have p1 : List.Perm ((List.insertionSort distLe l.enum).map Prod.snd)
        (l.enum.map Prod.snd) := (List.perm_insertionSort _ _).map _
    have p2 : List.Perm l (List.insertionSort (· ≤ ·) l) :=
      (List.perm_insertionSort _ _).symm
    rw [List.enum_map_snd l] at p1
    exact p1.trans p2
  · exact List.Pairwise.map Prod.snd
      (fun a b hab => hab.elim (fun h => le_of_lt h) (fun h => le_of_eq h.1))
      (List.sorted_insertionSort distLe l.enum)
  · exact List.sorted_insertionSort _ l

/-- Characterization of the 2-NN list: its first entry is the first train
index attaining the minimum distance, its second entry carries the second
order statistic of the distance multiset. -/
theorem knn2_spec (q : Descriptor) (T : List Descriptor)
    (h2 : 2 ≤ T.length) :
    ∃ j₁ d₁ j₂ d₂, knn2 q T = [(j₁, d₁), (j₂, d₂)] ∧
      j₁ < T.length ∧ d₁ = hammingDistance q (T.getD j₁ []) ∧
      (∀ j < T.length, d₁ ≤ hammingDistance q (T.getD j [])) ∧
      (∀ j < j₁, d₁ < hammingDistance q (T.getD j [])) ∧
      d₂ = secondDist q T := by
  have hdlen : (rowDists q T).length = T.length := List.length_map _ _
  have hselen :
      (List.insertionSort distLe (rowDists q T).enum).length = T.length := by
    rw [List.length_insertionSort, List.enum_length, hdlen]
  have hdist_at : ∀ j, j < T.length →
      (rowDists q T)[j]? = some (hammingDistance q (T.getD j [])) := by
    intro j hj
    have hj' : j < (rowDists q T).length := by omega
    unfold rowDists at hj' ⊢
    rw [List.getElem?_map, List.getElem?_eq_getElem (by simpa using hj),
      List.getD_eq_getElem _ _ hj]
    rfl
  obtain ⟨e₀, e₁, rest, hsE⟩ :
      ∃ e₀ e₁ rest,
        List.insertionSort distLe (rowDists q T).enum =
          e₀ :: e₁ :: rest := by
    rcases hse : List.insertionSort distLe (rowDists q T).enum with
      _ | ⟨a, _ | ⟨b, r⟩⟩
    · rw [hse] at hselen
      simp at hselen
      omega
    · rw [hse] at hselen
      simp at hselen
      omega
    · exact ⟨a, b, r, rfl⟩
  obtain ⟨j₁, d₁⟩ := e₀
  obtain ⟨j₂, d₂⟩ := e₁
  have hmem_e : ∀ x : Nat × Nat,
      x ∈ List.insertionSort distLe (rowDists q T).enum ↔
        x ∈ (rowDists q T).enum :=
    fun x => (List.perm_insertionSort _ _).mem_iff
  have he₀ : ((j₁, d₁) : Nat × Nat) ∈ (rowDists q T).enum := by
    rw [← hmem_e, hsE]
    exact List.mem_cons_self _ _
  have he₀' := List.mk_mem_enum_iff_getElem?.mp he₀
  obtain ⟨hj₁lt', he₀val⟩ := List.getElem?_eq_some.mp he₀'
  have hj₁lt : j₁ < T.length := by
    rw [hdlen] at hj₁lt'
    exact hj₁lt'
  have hd₁ : d₁ = hammingDistance q (T.getD j₁ []) := by
    have h1 := hdist_at j₁ hj₁lt
    rw [he₀'] at h1
    exact Option.some.inj h1
  have hsorted := List.sorted_insertionSort distLe (rowDists q T).enum
  rw [hsE] at hsorted
  have hmin : ∀ j, j < T.length →
      d₁ ≤ hammingDistance q (T.getD j []) ∧
      (j < j₁ → d₁ < hammingDistance q (T.getD j [])) := by
    intro j hj
    have hjmem : ((j, hammingDistance q (T.getD j [])) : Nat × Nat) ∈
        List.insertionSort distLe (rowDists q T).enum := by
      rw [hmem_e]
      exact List.mk_mem_enum_iff_getElem?.mpr (hdist_at j hj)
    rw [hsE] at hjmem
    rcases List.mem_cons.mp hjmem with heq | htail
    · have hjj : j = j₁ := congrArg Prod.fst heq
      have hdd : hammingDistance q (T.getD j []) = d₁ := congrArg Prod.snd heq
      exact ⟨le_of_eq hdd.symm, fun hlt => absurd (hjj ▸ hlt) (by omega)⟩
    · have hrel := List.rel_of_sorted_cons hsorted _ htail
      simp only [distLe] at hrel
      rcases hrel with hlt | ⟨heq', hle'⟩
      · exact ⟨le_of_lt hlt, fun _ => hlt⟩
      · refine ⟨le_of_eq heq', fun hjlt => absurd hle' (by omega)⟩
  have hd₂ : d₂ = secondDist q T := by
    unfold secondDist sortedRowDists
    rw [← map_snd_insertionSort_distLe (rowDists q T), hsE]
    rfl
  refine ⟨j₁, d₁, j₂, d₂, ?_, hj₁lt, hd₁,
    fun j hj => (hmin j hj).1,
    fun j hjlt => (hmin j (lt_trans hjlt hj₁lt)).2 hjlt, hd₂⟩
  unfold knn2
  rw [hsE]
  rfl

/-! ## Claim C3 -/

/-- C3: `matchFeatures` returns an empty good-match list (and cannot
throw — it is total) whenever either descriptor set is empty; otherwise
the good-match list contains exactly the 2-nearest-neighbor pairs whose
nearest distance is strictly below `ratioThreshold` times the
second-nearest distance (one per query row, train index resolved to the
first index attaining the minimum). -/
theorem matchFeatures_ratio_spec (ratio : ℚ) (Q T : List Descriptor) :
    ((Q = [] ∨ T = []) → matchFeatures ratio Q T = []) ∧
    (∀ m : DMatch, m ∈ matchFeatures ratio Q T ↔
      (2 ≤ T.length ∧ m.queryIdx < Q.length ∧ m.trainIdx < T.length ∧
        m.distance =
          hammingDistance (Q.getD m.queryIdx []) (T.getD m.trainIdx []) ∧
        (∀ j < T.length, m.distance ≤
          hammingDistance (Q.getD m.queryIdx []) (T.getD j [])) ∧
        (∀ j < m.trainIdx, m.distance <
          hammingDistance (Q.getD m.queryIdx []) (T.getD j [])) ∧
        ((m.distance : ℚ) <
          ratio * (secondDist (Q.getD m.queryIdx []) T : ℚ)))) := by
  by_cases hdeg : Q.length = 0 ∨ T.length = 0
  · have hmf : matchFeatures ratio Q T = [] := by
      unfold matchFeatures
      rw [if_pos hdeg]
    refine ⟨fun _ => hmf, fun m => ?_⟩
    rw [hmf]
    simp only [List.not_mem_nil, false_iff]
    rintro ⟨h2, hq, -⟩
    rcases hdeg with h | h <;> omega
  · push_neg at hdeg
    have hmf : matchFeatures ratio Q T =
        (List.range Q.length).filterMap (fun i =>
          match knn2 (Q.getD i []) T with
          | (j₁, d₁) :: (_, d₂) :: _ =>
              if (d₁ : ℚ) < ratio * (d₂ : ℚ) then
                some ⟨i, j₁, d₁⟩
              else none
          | _ => none) := by
      unfold matchFeatures
      rw [if_neg (not_or.mpr hdeg)]
    refine ⟨fun h => ?_, fun m => ?_⟩
    · rcases h with h | h
      · exact absurd (by rw [h]; rfl) hdeg.1
      · exact absurd (by rw [h]; rfl) hdeg.2
    rw [hmf, List.mem_filterMap]
    constructor
    · rintro ⟨i, hi_range, hfi⟩
      have hiQ : i < Q.length := List.mem_range.mp hi_range
      by_cases h2 : 2 ≤ T.length
      · obtain ⟨j₁, d₁, j₂, d₂, hknn, hjlt, hd₁, hmin, hfirst, hd₂⟩ :=
          knn2_spec (Q.getD i []) T h2
        rw [hknn] at hfi
        dsimp only at hfi
        split_ifs at hfi with hcond
        obtain rfl : (⟨i, j₁, d₁⟩ : DMatch) = m := Option.some.inj hfi
        exact ⟨h2, hiQ, hjlt, hd₁, hmin, hfirst, by rwa [← hd₂]⟩
      · exfalso
        have hT1 : T.length = 1 := by omega
        have hselen :
            (List.insertionSort distLe
              (rowDists (Q.getD i []) T).enum).length = 1 := by
          rw [List.length_insertionSort, List.enum_length]
          unfold rowDists
          rw [List.length_map, hT1]
        rcases hse :
            List.insertionSort distLe (rowDists (Q.getD i []) T).enum with
          _ | ⟨a, _ | ⟨b, r⟩⟩
        · rw [hse] at hselen
          simp at hselen
        · unfold knn2 at hfi
          rw [hse] at hfi
          simp at hfi
        · rw [hse] at hselen
          simp at hselen
    · rintro ⟨h2, hq, hjT, hdist, hmin', hfirst', hcond'⟩
      obtain ⟨j₁, d₁, j₂, d₂, hknn, hjlt, hd₁, hmin, hfirst, hd₂⟩ :=
        knn2_spec (Q.getD m.queryIdx []) T h2
      have hdeq : m.distance = d₁ := by
        have ha : m.distance ≤ d₁ := by
          rw [hd₁]
          exact hmin' j₁ hjlt
        have hb : d₁ ≤ m.distance := by
          rw [hdist]
          exact hmin m.trainIdx hjT
        omega
      have hjeq : m.trainIdx = j₁ := by
        by_contra hne
        rcases Nat.lt_or_ge m.trainIdx j₁ with hlt | hge
        · have hx := hfirst m.trainIdx hlt
          rw [← hdist] at hx
          omega
        · have hlt : j₁ < m.trainIdx := by omega
          have hx := hfirst' j₁ hlt
          rw [← hd₁] at hx
          omega
      refine ⟨m.queryIdx, List.mem_range.mpr hq, ?_⟩
      rw [hknn]
      dsimp only
      rw [if_pos (show (d₁ : ℚ) < ratio * (d₂ : ℚ) by rw [← hdeq, hd₂]; exact hcond')]
      rw [← hjeq, ← hdeq]

/-- Witness: matching against an empty target set yields the empty list. -/
theorem matchFeatures_ratio_spec_witness :
    matchFeatures (8 / 10) [[0]] [] = [] :=
  (matchFeatures_ratio_spec (8 / 10) [[0]] []).1 (Or.inr rfl)

/-- A candidate whose homography is `null` leaves the loop state alone. -/
theorem detectStep_skip (findH : FindHOracle) (minM : Nat) (ratio : ℚ)
    (ff : FeatureSet) (acc : Option Detection × ℚ) (t : Target)
    (h : candidateHomography findH minM ratio ff t = none) :
    detectStep findH minM ratio ff acc t = acc := by
  unfold detectStep
  rw [h]

/-- A candidate with a valid homography replaces the running best exactly
when its score exceeds the running maximum. -/
theorem detectStep_some (findH : FindHOracle) (minM : Nat) (ratio : ℚ)
    (ff : FeatureSet) (acc : Option Detection × ℚ) (t : Target) (H : MatQ)
    (h : candidateHomography findH minM ratio ff t = some H) :
    detectStep findH minM ratio ff acc t =
      if acc.2 < candidateScore ratio ff t then
        (some (mkDetection ratio ff t H), candidateScore ratio ff t)
      else acc := by
  unfold detectStep
  rw [h]

/-- The candidate loop never moves off a state whose score bounds every
remaining valid candidate. -/
theorem detect_fold_keep (findH : FindHOracle) (minM : Nat) (ratio : ℚ)
    (ff : FeatureSet) :
    ∀ (l : List Target) (a : Option Detection) (s : ℚ),
      (∀ t ∈ l, candidateHomography findH minM ratio ff t ≠ none →
        candidateScore ratio ff t ≤ s) →
      l.foldl (detectStep findH minM ratio ff) (a, s) = (a, s)
  | [], _, _ => fun _ => rfl
  | t :: l, a, s => fun h => by
    rw [List.foldl_cons]
    rcases hc : candidateHomography findH minM ratio ff t with _ | H
    · rw [detectStep_skip _ _ _ _ _ _ hc]
      exact detect_fold_keep findH minM ratio ff l a s
        (fun u hu => h u (List.mem_cons_of_mem _ hu))
    · rw [detectStep_some _ _ _ _ _ _ _ hc,
        if_neg (not_lt.mpr (h t (List.mem_cons_self _ _) (by rw [hc]; simp)))]
      exact detect_fold_keep findH minM ratio ff l a s
        (fun u hu => h u (List.mem_cons_of_mem _ hu))

/-- The loop's running maximum stays strictly below a bound dominating
every valid candidate score. -/
theorem detect_fold_lt (findH : FindHOracle) (minM : Nat) (ratio : ℚ)
    (ff : FeatureSet) (c : ℚ) :
    ∀ (l : List Target) (a : Option Detection) (s : ℚ),
      s < c →
      (∀ t ∈ l, candidateHomography findH minM ratio ff t ≠ none →
        candidateScore ratio ff t < c) →
      (l.foldl (detectStep findH minM ratio ff) (a, s)).2 < c
  | [], _, _ => fun hs _ => hs
  | t :: l, a, s => fun hs h => by
    rw [List.foldl_cons]
    rcases hc : candidateHomography findH minM ratio ff t with _ | H
    · rw [detectStep_skip _ _ _ _ _ _ hc]
      exact detect_fold_lt findH minM ratio ff c l a s hs
        (fun u hu => h u (List.mem_cons_of_mem _ hu))
    · rw [detectStep_some _ _ _ _ _ _ _ hc]
      split_ifs with hlt
      · exact detect_fold_lt findH minM ratio ff c l _ _
          (h t (List.mem_cons_self _ _) (by rw [hc]; simp))
          (fun u hu => h u (List.mem_cons_of_mem _ hu))
      · exact detect_fold_lt findH minM ratio ff c l a s hs
          (fun u hu => h u (List.mem_cons_of_mem _ hu))

/-- Under the configuration floor `minMatches ≥ 4` and well-formed
`FeatureSet`s, every candidate that survives homography validation has a
strictly positive score. -/
theorem candidateScore_pos (findH : FindHOracle) (minM : Nat) (ratio : ℚ)
    (ff : FeatureSet) (t : Target) (hmin : 4 ≤ minM)
    (hwf : ∀ fs, t.features = some fs →
      fs.count = fs.keypoints.length ∧
      fs.descriptors.length = fs.keypoints.length)
    (hH : candidateHomography findH minM ratio ff t ≠ none) :
    0 < candidateScore ratio ff t := by
  unfold candidateHomography at hH
  unfold candidateScore
  rcases hf : t.features with _ | tf
  · rw [hf] at hH
    exact absurd rfl hH
  · rw [hf] at hH
    dsimp only at hH
    split_ifs at hH with hrows
    · exact absurd rfl hH
    · have hlen :
          ¬ ((matchFeatures ratio ff.descriptors tf.descriptors).length <
            minM) := by
        intro hcon
        apply hH
        unfold computeHomography
        rw [if_pos hcon]
      obtain ⟨h1, h2⟩ := hwf tf hf
      have hc0 : 0 < tf.count := by omega
      have hg0 :
          0 < (matchFeatures ratio ff.descriptors tf.descriptors).length := by
        omega
      exact div_pos (by exact_mod_cast hg0) (by exact_mod_cast hc0)

/-! ## Claim C1 -/

/-- C1: `detect` fails with `"No frame features"` on a featureless frame;
with frame features present it fails with `"No valid detection"` when no
candidate clears homography validation, and otherwise returns the
maximum-scoring valid candidate, ties broken in favor of the first
candidate to reach the score (candidates preceding the winner score
strictly lower; candidates after it score no higher).  Hypotheses: the
configured floor `minMatches ≥ 4`, and candidate `FeatureSet`s well-formed
(stored `count` = keypoint count = descriptor row count), both established
by configuration validation and `extractFeatures` respectively. -/
theorem detect_spec (det : DetectOracle) (findH : FindHOracle)
    (maxF minM : Nat) (ratio : ℚ) (frame : Nat) (targets : List Target)
    (hmin : 4 ≤ minM)
    (hwf : ∀ t ∈ targets, ∀ fs, t.features = some fs →
      fs.count = fs.keypoints.length ∧
      fs.descriptors.length = fs.keypoints.length) :
    ((extractFeatures det maxF frame).count = 0 →
      detect det findH maxF minM ratio frame targets =
        .failure ("No frame features")) ∧
    ((extractFeatures det maxF frame).count ≠ 0 →
      (∀ t ∈ targets,
        candidateHomography findH minM ratio
          (extractFeatures det maxF frame) t = none) →
      detect det findH maxF minM ratio frame targets =
        .failure ("No valid detection")) ∧
    (∀ l₁ t l₂ H, (extractFeatures det maxF frame).count ≠ 0 →
      targets = l₁ ++ t :: l₂ →
      candidateHomography findH minM ratio (extractFeatures det maxF frame) t
        = some H →
      (∀ u ∈ l₁,
        candidateHomography findH minM ratio
          (extractFeatures det maxF frame) u ≠ none →
        candidateScore ratio (extractFeatures det maxF frame) u <
          candidateScore ratio (extractFeatures det maxF frame) t) →
      (∀ u ∈ l₂,
        candidateHomography findH minM ratio
          (extractFeatures det maxF frame) u ≠ none →
        candidateScore ratio (extractFeatures det maxF frame) u ≤
          candidateScore ratio (extractFeatures det maxF frame) t) →
      detect det findH maxF minM ratio frame targets =
        .success
          (mkDetection ratio (extractFeatures det maxF frame) t H)) := by
  refine ⟨fun h0 => ?_, fun hne hall => ?_, fun l₁ t l₂ H hne hsplit hH hpre
    hsuf => ?_⟩
  · unfold detect
    rw [if_pos h0]
  · unfold detect
    rw [if_neg hne]
    rw [detect_fold_keep findH minM ratio (extractFeatures det maxF frame)
      targets none 0 (fun u hu hne' => absurd (hall u hu) hne')]
  · have ht_mem : t ∈ targets := by
      rw [hsplit]
      exact List.mem_append_right _ (List.mem_cons_self _ _)
    have hpos :
        0 < candidateScore ratio (extractFeatures det maxF frame) t :=
      candidateScore_pos findH minM ratio _ t hmin (hwf t ht_mem)
        (by rw [hH]; simp)
    unfold detect
    rw [if_neg hne, hsplit, List.foldl_append, List.foldl_cons]
    have hs₁ := detect_fold_lt findH minM ratio
      (extractFeatures det maxF frame)
      (candidateScore ratio (extractFeatures det maxF frame) t)
      l₁ none 0 hpos hpre
    set P₁ := l₁.foldl
      (detectStep findH minM ratio (extractFeatures det maxF frame))
      (none, 0) with hP₁
    rw [show P₁ = (P₁.1, P₁.2) from rfl,
      detectStep_some _ _ _ _ _ _ _ hH, if_pos hs₁,
      detect_fold_keep findH minM ratio (extractFeatures det maxF frame)
        l₂ _ _ hsuf]

/-- Witness: a featureless frame yields `"No frame features"`; a frame
with features but an empty candidate list yields `"No valid detection"`. -/
theorem detect_spec_witness :
    detect (fun _ => []) (fun _ _ => none) 1000 4 (8 / 10) 0 [] =
      .failure ("No frame features") ∧
    detect (fun _ => [(⟨0, 0, 1⟩, [0])]) (fun _ _ => none) 1000 4 (8 / 10) 0
      [] = .failure ("No valid detection") := by
  constructor
  · exact (detect_spec (fun _ => []) (fun _ _ => none) 1000 4 (8 / 10) 0 []
      (by norm_num) (by simp)).1 (by decide)
  · exact (detect_spec (fun _ => [(⟨0, 0, 1⟩, [0])]) (fun _ _ => none) 1000 4
      (8 / 10) 0 [] (by norm_num) (by simp)).2.1 (by decide) (by simp)

/-- The plain scan and its ghost variant agree on the returned index. -/
theorem findNearestGo_eq_goD :
    ∀ (D : List Nat) (i : Nat) (b : Option (Nat × Nat)),
      findNearestGo i b D =
        (match findNearestGoD i b D with
          | some p => p.1
          | none => 0)
  | [], _, none => rfl
  | [], _, some (_, _) => rfl
  | d :: ds, i, none => by
    simp only [findNearestGo, findNearestGoD]
    exact findNearestGo_eq_goD ds (i + 1) (some (i, d))
  | d :: ds, i, some (j, bd) => by
    simp only [findNearestGo, findNearestGoD]
    split_ifs <;> exact findNearestGo_eq_goD ds (i + 1) _

/-- Invariant of the ghost scan: it returns a pair whose distance is a
lower bound of the running best and of all remaining distances, achieved
either by the incoming best or at some position in the remaining list. -/
theorem findNearestGoD_spec :
    ∀ (D : List Nat) (i j bd : Nat),
      ∃ j' bd', findNearestGoD i (some (j, bd)) D = some (j', bd') ∧
        bd' ≤ bd ∧ (∀ d ∈ D, bd' ≤ d) ∧
        ((j' = j ∧ bd' = bd) ∨
          (∃ k, k < D.length ∧ j' = i + k ∧ D.getD k 0 = bd'))
  | [], i, j, bd => ⟨j, bd, rfl, le_refl _, by simp, Or.inl ⟨rfl, rfl⟩⟩
  | d :: ds, i, j, bd => by
    by_cases hd : d < bd
    · obtain ⟨j', bd', heq, hle, hall, hpos⟩ :=
        findNearestGoD_spec ds (i + 1) i d
      refine ⟨j', bd', ?_, hle.trans (le_of_lt hd), ?_, ?_⟩
      · simp only [findNearestGoD]
        rw [if_pos hd]
        exact heq
      · intro x hx
        rcases List.mem_cons.mp hx with rfl | hx'
        · exact hle
        · exact hall x hx'
      · rcases hpos with ⟨hj', hbd'⟩ | ⟨k, hk, hjk, hdk⟩
        · refine Or.inr ⟨0, by simp, by omega, by simpa using hbd'.symm⟩
        · refine Or.inr ⟨k + 1, by simpa using Nat.succ_lt_succ hk,
            by omega, by simpa using hdk⟩
    · obtain ⟨j', bd', heq, hle, hall, hpos⟩ :=
        findNearestGoD_spec ds (i + 1) j bd
      refine ⟨j', bd', ?_, hle, ?_, ?_⟩
      · simp only [findNearestGoD]
        rw [if_neg hd]
        exact heq
      · intro x hx
        rcases List.mem_cons.mp hx with rfl | hx'
        · exact hle.trans (not_lt.mp hd)
        · exact hall x hx'
      · rcases hpos with h | ⟨k, hk, hjk, hdk⟩
        · exact Or.inl h
        · refine Or.inr ⟨k + 1, by simpa using Nat.succ_lt_succ hk,
            by omega, by simpa using hdk⟩

/-- Argmin property of `findNearestCluster`: on a non-empty cluster list it
returns an in-range index whose Hamming distance is minimal. -/
theorem findNearestCluster_spec (q : Descriptor) (cs : List Descriptor)
    (hne : cs ≠ []) :
    findNearestCluster q cs < cs.length ∧
    ∀ j < cs.length,
      hammingDistance q (cs.getD (findNearestCluster q cs) []) ≤
        hammingDistance q (cs.getD j []) := by
  obtain ⟨c, cs', rfl⟩ := List.exists_cons_of_ne_nil hne
  obtain ⟨j', bd', heq, hle, hall, hpos⟩ :=
    findNearestGoD_spec (cs'.map (hammingDistance q)) 1 0
      (hammingDistance q c)
  have hfix : findNearestCluster q (c :: cs') = j' := by
    unfold findNearestCluster
    rw [List.map_cons, findNearestGo_eq_goD]
    have hgoD :
        findNearestGoD 0 none
          (hammingDistance q c :: cs'.map (hammingDistance q)) =
          findNearestGoD 1 (some (0, hammingDistance q c))
            (cs'.map (hammingDistance q)) := rfl
    rw [hgoD, heq]
  rw [hfix]
  have hmaplen : (cs'.map (hammingDistance q)).length = cs'.length :=
    List.length_map _ _
  have hdist_j' : hammingDistance q ((c :: cs').getD j' []) = bd' := by
    rcases hpos with ⟨hj0, hbd⟩ | ⟨k, hk, hjk, hdk⟩
    · rw [hj0, hbd]
      rfl
    · rw [hjk, show (1 : Nat) + k = k + 1 by omega, List.getD_cons_succ]
      have hk' : k < cs'.length := by rwa [hmaplen] at hk
      rw [List.getD_eq_getElem _ _ hk']
      rw [List.getD_eq_getElem _ _ hk, List.getElem_map] at hdk
      exact hdk
  constructor
  · rcases hpos with ⟨hj0, -⟩ | ⟨k, hk, hjk, -⟩
    · rw [hj0]
      simp
    · rw [hjk]
      rw [hmaplen] at hk
      simp only [List.length_cons]
      omega
  · intro j hj
    rw [hdist_j']
    cases j with
    | zero => exact hle
    | succ j0 =>
      have hj0 : j0 < cs'.length := by
        simp only [List.length_cons] at hj
        omega
      rw [List.getD_cons_succ, List.getD_eq_getElem _ _ hj0]
      exact hall _ (List.mem_map.mpr ⟨_, List.getElem_mem _, rfl⟩)

/-- The zip-with-assignments filter in `kmeansStep` computes the plain
filter of the descriptors assigned to cluster `i`. -/
theorem zip_assignments_filter (f : Descriptor → Nat) (i : Nat) :
    ∀ d : List Descriptor,
      (d.zip (d.map f)).filterMap
          (fun p => if p.2 = i then some p.1 else none) =
        d.filter (fun x => decide (f x = i))
  | [] => rfl
  | x :: d => by
    simp only [List.map_cons, List.zip_cons_cons, List.filterMap_cons,
      List.filter_cons]
    by_cases hx : f x = i
    · rw [if_pos hx, if_pos (by simpa using hx)]
      rw [zip_assignments_filter f i d]
    · rw [if_neg hx, if_neg (by simpa using hx)]
      exact zip_assignments_filter f i d

/-! ## Claim C7 -/

/-- C7: vocabulary building is deterministic — the model is a pure
function of the target list (descriptor order included), with no random
source: two runs on the same input are equal.  Clustering seeds its
centers with the first `min(vocabularySize, poolSize)` pool descriptors,
runs exactly 10 assign/update passes, assigns each descriptor to the
nearest center by Hamming distance (`findNearestCluster` is a true argmin,
first index on ties), and recomputes each center with a non-empty
assigned group as the per-coordinate rounded mean of its members. -/
theorem vocabulary_build_deterministic (rlog : ℚ → ℚ) (K : Nat)
    (d : List Descriptor) (targets : List Target) (st : VocabSt) :
    vocabBuild rlog K targets st = vocabBuild rlog K targets st ∧
    kmeansClustering d K =
      (kmeansStep d)^[10] (d.take (min K d.length)) ∧
    (d.take (min K d.length)).length = min K d.length ∧
    (∀ q cs, cs ≠ [] →
      findNearestCluster q cs < cs.length ∧
      ∀ j < cs.length,
        hammingDistance q (cs.getD (findNearestCluster q cs) []) ≤
          hammingDistance q (cs.getD j [])) ∧
    (∀ descriptors clusters : List Descriptor, ∀ i, i < clusters.length →
      (kmeansStep descriptors clusters).getD i [] =
        (if (descriptors.filter
              (fun x => decide (findNearestCluster x clusters = i))).isEmpty
          then clusters.getD i []
          else computeMean (descriptors.filter
            (fun x => decide (findNearestCluster x clusters = i))))) ∧
    (∀ (ds : List Descriptor) (d₀ : Descriptor) (ds' : List Descriptor),
      ds = d₀ :: ds' →
      computeMean ds = (List.range d₀.length).map (fun j =>
        roundHalfUp (((ds.map (fun r => r.getD j 0)).sum : ℚ) /
          (ds.length : ℚ)))) := by
  refine ⟨rfl, rfl, ?_, fun q cs hne => findNearestCluster_spec q cs hne,
    ?_, ?_⟩
  · rw [List.length_take]
    omega
  · intro descriptors clusters i hi
    unfold kmeansStep
    rw [List.getD_eq_getElem _ _ (by rw [List.length_mapIdx]; exact hi),
      List.getElem_mapIdx]
    dsimp only
    rw [zip_assignments_filter (fun x => findNearestCluster x clusters) i
      descriptors]
    rw [List.getD_eq_getElem _ _ hi]
  · intro ds d₀ ds' hds
    subst hds
    rfl

/-- Witness: the argmin property at a concrete descriptor and cluster
list. -/
theorem vocabulary_build_deterministic_witness :
    findNearestCluster [0] [[1], [0]] < ([[1], [0]] : List Descriptor).length
      ∧
    ∀ j < ([[1], [0]] : List Descriptor).length,
      hammingDistance [0] (([[1], [0]] : List Descriptor).getD
        (findNearestCluster [0] [[1], [0]]) []) ≤
        hammingDistance [0] (([[1], [0]] : List Descriptor).getD j []) :=
  (vocabulary_build_deterministic (fun _ => 0) 2 [] [] ⟨[], [], []⟩).2.2.2.1
    [0] [[1], [0]] (by decide)

/-- Setting a fresh key appends the binding (JS `Map.set`). -/
theorem mapSet_fresh {α : Type} (m : List (Nat × α)) (k : Nat) (v : α)
    (h : ∀ p ∈ m, p.1 ≠ k) : mapSet m k v = m ++ [(k, v)] := by
  unfold mapSet
  rw [if_neg]
  intro hc
  obtain ⟨p, hp, hpk⟩ := List.any_eq_true.mp hc
  exact h p hp (of_decide_eq_true hpk)

/-- Looking up an overwritten key after an in-place update. -/
theorem lookup_map_overwrite {α : Type} (m : List (Nat × α)) (k : Nat)
    (v : α) (h : m.any (fun p => decide (p.1 = k)) = true) :
    (m.map (fun p => if p.1 = k then (k, v) else p)).lookup k = some v := by
  induction m with
  | nil => simp at h
  | cons p m ih =>
    by_cases hp : p.1 = k
    · rw [List.map_cons, if_pos hp]
      simp [List.lookup]
    · rw [List.map_cons, if_neg hp]
      have hm : m.any (fun q => decide (q.1 = k)) = true := by
        simp only [List.any_cons, Bool.or_eq_true, decide_eq_true_eq] at h
        rcases h with h | h
        · exact absurd h hp
        · exact h
      have hbeq : (k == p.1) = false :=
        beq_eq_false_iff_ne.mpr (fun he => hp he.symm)
      simp [List.lookup, hbeq, ih hm]

/-- Looking up a freshly appended key. -/
theorem lookup_append_fresh {α : Type} (m : List (Nat × α)) (k : Nat)
    (v : α) (h : ∀ p ∈ m, p.1 ≠ k) :
    (m ++ [(k, v)]).lookup k = some v := by
  induction m with
  | nil => simp [List.lookup]
  | cons p m ih =>
    have hp : p.1 ≠ k := h p (List.mem_cons_self _ _)
    have hbeq : (k == p.1) = false :=
      beq_eq_false_iff_ne.mpr (fun he => hp he.symm)
    simp only [List.cons_append, List.lookup, hbeq]
    exact ih (fun q hq => h q (List.mem_cons_of_mem _ hq))

/-- `Map.set` always makes the key retrievable. -/
theorem lookup_mapSet {α : Type} (m : List (Nat × α)) (k : Nat) (v : α) :
    (mapSet m k v).lookup k = some v := by
  unfold mapSet
  split_ifs with hany
  · exact lookup_map_overwrite m k v hany
  · refine lookup_append_fresh m k v ?_
    intro p hp hpk
    have : m.any (fun p => decide (p.1 = k)) = true :=
      List.any_eq_true.mpr ⟨p, hp, by simpa using hpk⟩
    exact hany this

/-- Erasing a freshly appended binding restores the original list. -/
theorem eraseP_append_fresh {α : Type} (m : List (Nat × α)) (k : Nat)
    (x : Nat × α) (h : ∀ p ∈ m, p.1 ≠ k) (hx : x.1 = k) :
    (m ++ [x]).eraseP (fun p => p.1 == k) = m := by
  induction m with
  | nil =>
    simp only [List.nil_append]
    rw [List.eraseP_cons, show (x.1 == k) = true from beq_iff_eq.mpr hx]
    rfl
  | cons p m ih =>
    have hp : p.1 ≠ k := h p (List.mem_cons_self _ _)
    rw [List.cons_append, List.eraseP_cons,
      show (p.1 == k) = false from beq_eq_false_iff_ne.mpr hp]
    simp only [cond_false]
    rw [ih (fun q hq => h q (List.mem_cons_of_mem _ hq))]

/-- The descriptor-pool fold with an explicit accumulator. -/
theorem collectDescriptors_go :
    ∀ (l : List Target) (acc : List Descriptor),
      l.foldl
        (fun acc t =>
          match t.features with
          | some fs => acc ++ fs.descriptors
          | none => acc) acc = acc ++ collectDescriptors l
  | [], acc => by simp [collectDescriptors]
  | t :: l, acc => by
    unfold collectDescriptors
    rw [List.foldl_cons, List.foldl_cons]
    rcases ht : t.features with _ | fs
    · rw [collectDescriptors_go l acc,
        collectDescriptors_go l []]
      simp [collectDescriptors]
    · rw [collectDescriptors_go l (acc ++ fs.descriptors),
        collectDescriptors_go l ([] ++ fs.descriptors)]
      simp [collectDescriptors, List.append_assoc]

/-- The pool of an appended target list splits into the two pools. -/
theorem collectDescriptors_append (l₁ l₂ : List Target) :
    collectDescriptors (l₁ ++ l₂) =
      collectDescriptors l₁ ++ collectDescriptors l₂ := by
  unfold collectDescriptors
  rw [List.foldl_append, collectDescriptors_go l₂ _, collectDescriptors_go l₁ []]
  simp [collectDescriptors]

/-- One clustering pass preserves the number of centers. -/
theorem kmeansStep_length (d cs : List Descriptor) :
    (kmeansStep d cs).length = cs.length := by
  unfold kmeansStep
  rw [List.length_mapIdx]

/-- The vocabulary has `min(vocabularySize, poolSize)` words. -/
theorem kmeansClustering_length (d : List Descriptor) (K : Nat) :
    (kmeansClustering d K).length = min K d.length := by
  unfold kmeansClustering
  have hiter : ∀ (n : Nat) (cs : List Descriptor),
      ((kmeansStep d)^[n] cs).length = cs.length := by
    intro n
    induction n with
    | zero => intro cs; rfl
    | succ n ih =>
      intro cs
      rw [Function.iterate_succ_apply, ih, kmeansStep_length]
  rw [hiter, List.length_take]
  omega

/-- Sorting a single score is the identity. -/
theorem sortScoresDesc_singleton (x : Nat × ℚ) : sortScoresDesc [x] = [x] :=
  rfl

/-- Core of the registration round trip: adding a fresh target that
contributes at least one descriptor and immediately removing it restores
the registry exactly, yet leaves the target's bag-of-words entry in the
vocabulary (the removal does not rebuild); on a previously empty tracker a
subsequent query returns exactly the removed target's id, for every query
descriptor set. -/
theorem roundTrip_stale_core (det : DetectOracle) (maxF K topC : Nat)
    (rlog : ℚ → ℚ) (st : TrackerModel) (t : Target)
    (hfresh : ∀ p ∈ st.targets, p.1 ≠ t.id)
    (hne : (extractFeatures det maxF t.image).descriptors ≠ [])
    (hK : 1 ≤ K) (htopC : 1 ≤ topC) :
    (removeTarget (addTarget det maxF rlog K st t) t.id).targets =
      st.targets ∧
    (∃ bow, (removeTarget (addTarget det maxF rlog K st t)
        t.id).vocab.targetFeatures.lookup t.id = some bow) ∧
    (st.targets = [] → st.vocab = ⟨[], [], []⟩ →
      ∀ qd, vocabQuery topC
        (removeTarget (addTarget det maxF rlog K st t) t.id).vocab qd =
        [t.id]) := by
  have htargets' : (addTarget det maxF rlog K st t).targets =
      st.targets ++
        [(t.id, { t with
          features := some (extractFeatures det maxF t.image) })] := by
    unfold addTarget
    exact mapSet_fresh _ _ _ hfresh
  have hvocab' : (addTarget det maxF rlog K st t).vocab =
      vocabBuild rlog K
        (st.targets.map Prod.snd ++
          [{ t with features := some (extractFeatures det maxF t.image) }])
        st.vocab := by
    unfold addTarget rebuildVocabulary
    dsimp only
    rw [mapSet_fresh _ _ _ hfresh]
    rw [if_neg (by simp)]
    rw [List.map_append]
    rfl
  have hpool : collectDescriptors
      (st.targets.map Prod.snd ++
        [{ t with features := some (extractFeatures det maxF t.image) }]) =
      collectDescriptors (st.targets.map Prod.snd) ++
        (extractFeatures det maxF t.image).descriptors := by
    rw [collectDescriptors_append]
    unfold collectDescriptors
    rfl
  have hpool_ne : ¬ (collectDescriptors
      (st.targets.map Prod.snd ++
        [{ t with features := some (extractFeatures det maxF t.image) }])
      ).isEmpty = true := by
    rw [hpool]
    simp only [List.isEmpty_eq_true, List.append_eq_nil]
    rintro ⟨-, hc⟩
    exact hne hc
  have hbuild : vocabBuild rlog K
      (st.targets.map Prod.snd ++
        [{ t with features := some (extractFeatures det maxF t.image) }])
      st.vocab =
      { vocabulary := kmeansClustering
          (collectDescriptors (st.targets.map Prod.snd) ++
            (extractFeatures det maxF t.image).descriptors) K
        targetFeatures := mapSet
          ((st.targets.map Prod.snd).foldl
            (fun m u =>
              match u.features with
              | some fs => mapSet m u.id
                  (computeBagOfWords
                    (kmeansClustering
                      (collectDescriptors (st.targets.map Prod.snd) ++
                        (extractFeatures det maxF t.image).descriptors) K)
                    fs.descriptors)
              | none => m)
            st.vocab.targetFeatures)
          t.id
          (computeBagOfWords
            (kmeansClustering
              (collectDescriptors (st.targets.map Prod.snd) ++
                (extractFeatures det maxF t.image).descriptors) K)
            (extractFeatures det maxF t.image).descriptors)
        idf := computeIDF rlog
          (mapSet
            ((st.targets.map Prod.snd).foldl
              (fun m u =>
                match u.features with
                | some fs => mapSet m u.id
                    (computeBagOfWords
                      (kmeansClustering
                        (collectDescriptors (st.targets.map Prod.snd) ++
                          (extractFeatures det maxF t.image).descriptors) K)
                      fs.descriptors)
                | none => m)
              st.vocab.targetFeatures)
            t.id
            (computeBagOfWords
              (kmeansClustering
                (collectDescriptors (st.targets.map Prod.snd) ++
                  (extractFeatures det maxF t.image).descriptors) K)
              (extractFeatures det maxF t.image).descriptors))
          st.vocab.idf } := by
    simp only [vocabBuild]
    rw [if_neg hpool_ne, hpool]
    rw [List.foldl_append]
    rfl
  refine ⟨?_, ?_, ?_⟩
  · unfold removeTarget
    rw [htargets']
    exact eraseP_append_fresh st.targets t.id _ hfresh rfl
  · rw [show (removeTarget (addTarget det maxF rlog K st t) t.id).vocab =
      (addTarget det maxF rlog K st t).vocab from rfl, hvocab', hbuild]
    exact ⟨_, lookup_mapSet _ _ _⟩
  · intro hT hV qd
    have hvq : (removeTarget (addTarget det maxF rlog K st t) t.id).vocab =
        (addTarget det maxF rlog K st t).vocab := rfl
    rw [hvq, hvocab', hbuild, hT, hV]
    simp only [List.map_nil, List.foldl_nil]
    have htf : mapSet ([] : List (Nat × Bow)) t.id
        (computeBagOfWords
          (kmeansClustering
            (collectDescriptors [] ++
              (extractFeatures det maxF t.image).descriptors) K)
          (extractFeatures det maxF t.image).descriptors) =
        [(t.id, computeBagOfWords
          (kmeansClustering
            (collectDescriptors [] ++
              (extractFeatures det maxF t.image).descriptors) K)
          (extractFeatures det maxF t.image).descriptors)] := by
      rw [mapSet_fresh _ _ _ (by simp)]
      rfl
    unfold vocabQuery
    rw [htf]
    rw [if_neg (by
      rw [kmeansClustering_length]
      simp only [collectDescriptors, List.foldl_nil, List.nil_append]
      have h0 : 0 < (extractFeatures det maxF t.image).descriptors.length :=
        List.length_pos.mpr hne
      omega)]
    dsimp only
    rcases topC with _ | topC'
    · omega
    · rw [List.map_cons, List.map_nil, sortScoresDesc_singleton,
        List.take_succ_cons, List.take_nil]
      rfl

/-! ## Claim C5 (corrected) -/

/-- C5 counterexample: register a single one-descriptor target with id 1
into a fresh tracker and immediately remove it; a subsequent vocabulary
query still returns id 1 as its ranked candidate — `removeTarget` deletes
only the registry entry and never rebuilds the vocabulary, so the stale
bag-of-words entry keeps scoring.  (`Math.log` is only evaluated at 1
here, so the log model `fun _ => 0` is exact.) -/
theorem query_returns_removed_target :
    vocabQuery 3
      (removeTarget
        (addTarget (fun _ => [(⟨0, 0, 1⟩, [0])]) 1000 (fun _ => 0) 200
          ⟨[], ⟨[], [], []⟩⟩ ⟨1, 200, 200, 0, none⟩) 1).vocab [[0]] =
      [1] :=
  (roundTrip_stale_core (fun _ => [(⟨0, 0, 1⟩, [0])]) 1000 200 3
    (fun _ => 0) ⟨[], ⟨[], [], []⟩⟩ ⟨1, 200, 200, 0, none⟩ (by simp)
    (by decide) (by decide) (by decide)).2.2 rfl rfl [[0]]

/-- C5 amended: registering a fresh target (contributing at least one
descriptor) and immediately removing it leaves the registry exactly as
before, but the vocabulary is NOT rebuilt on removal: the removed target's
bag-of-words entry survives, and on a previously empty tracker a
subsequent query returns exactly the removed target's id for every frame
descriptor set (so `query` can return the removed id — the original
"never returns that target's id" fails). -/
theorem addTarget_removeTarget_roundtrip (det : DetectOracle)
    (maxF K topC : Nat) (rlog : ℚ → ℚ) (st : TrackerModel) (t : Target)
    (hfresh : ∀ p ∈ st.targets, p.1 ≠ t.id)
    (hne : (extractFeatures det maxF t.image).descriptors ≠ [])
    (hK : 1 ≤ K) (htopC : 1 ≤ topC) :
    (removeTarget (addTarget det maxF rlog K st t) t.id).targets =
      st.targets ∧
    (∃ bow, (removeTarget (addTarget det maxF rlog K st t)
        t.id).vocab.targetFeatures.lookup t.id = some bow) ∧
    (st.targets = [] → st.vocab = ⟨[], [], []⟩ →
      ∀ qd, vocabQuery topC
        (removeTarget (addTarget det maxF rlog K st t) t.id).vocab qd =
        [t.id]) :=
  roundTrip_stale_core det maxF K topC rlog st t hfresh hne hK htopC

/-- Witness: a concrete instance of the amended round trip. -/
theorem addTarget_removeTarget_roundtrip_witness :
    (removeTarget
      (addTarget (fun _ => [(⟨0, 0, 1⟩, [0])]) 1000 (fun _ => 0) 200
        ⟨[], ⟨[], [], []⟩⟩ ⟨2, 100, 100, 0, none⟩) 2).targets = [] :=
  (addTarget_removeTarget_roundtrip (fun _ => [(⟨0, 0, 1⟩, [0])]) 1000 200
    3 (fun _ => 0) ⟨[], ⟨[], [], []⟩⟩ ⟨2, 100, 100, 0, none⟩ (by simp)
    (by decide) (by decide) (by decide)).1

/-- With the constant estimator oracle and enough matches,
`computeHomography` returns the identity matrix. -/
theorem computeHomography_const_idMat (fk tk : List KeyPoint)
    (g : List DMatch) (hg : ¬ g.length < 4) :
    computeHomography (fun _ _ => some idMat) 4 fk tk g = some idMat := by
  unfold computeHomography
  rw [if_neg hg]
  dsimp only
  rw [if_pos]
  unfold validateHomography
  rw [if_neg (by decide)]
  rw [if_neg (by
    rw [show idMat.doubleAt 0 0 = 1 from by decide,
      show idMat.doubleAt 1 1 = 1 from by decide,
      show idMat.doubleAt 2 2 = 1 from by decide]
    norm_num)]
  rw [if_neg (by
    rw [show idMat.doubleAt 2 2 = 1 from by decide]
    norm_num)]

/-- Concrete matching run: four identical `[0]` frame rows against
`targetA`'s descriptors — all four rows pass the ratio test. -/
theorem matchFeatures_frameA :
    matchFeatures (8 / 10) [[0], [0], [0], [0]] [[0], [255], [255]] =
      [⟨0, 0, 0⟩, ⟨1, 0, 0⟩, ⟨2, 0, 0⟩, ⟨3, 0, 0⟩] := by
  have hknn : knn2 [0] [[0], [255], [255]] = [(0, 0), (1, 8)] := by decide
  have hcond : ((0 : Nat) : ℚ) < 8 / 10 * ((8 : Nat) : ℚ) := by norm_num
  unfold matchFeatures
  rw [if_neg (by decide)]
  rw [show List.range ([[0], [0], [0], [0]] : List Descriptor).length =
    [0, 1, 2, 3] from by decide]
  simp only [List.filterMap_cons, List.filterMap_nil]
  rw [show ([[0], [0], [0], [0]] : List Descriptor).getD 0 [] = [0]
      from by decide,
    show ([[0], [0], [0], [0]] : List Descriptor).getD 1 [] = [0]
      from by decide,
    show ([[0], [0], [0], [0]] : List Descriptor).getD 2 [] = [0]
      from by decide,
    show ([[0], [0], [0], [0]] : List Descriptor).getD 3 [] = [0]
      from by decide]
  simp only [hknn]
  rw [if_pos hcond, if_pos hcond, if_pos hcond, if_pos hcond]

/-- Concrete matching run against `targetB`'s descriptors. -/
theorem matchFeatures_frameB :
    matchFeatures (8 / 10) [[0], [0], [0], [0]] [[0], [255]] =
      [⟨0, 0, 0⟩, ⟨1, 0, 0⟩, ⟨2, 0, 0⟩, ⟨3, 0, 0⟩] := by
  have hknn : knn2 [0] [[0], [255]] = [(0, 0), (1, 8)] := by decide
  have hcond : ((0 : Nat) : ℚ) < 8 / 10 * ((8 : Nat) : ℚ) := by norm_num
  unfold matchFeatures
  rw [if_neg (by decide)]
  rw [show List.range ([[0], [0], [0], [0]] : List Descriptor).length =
    [0, 1, 2, 3] from by decide]
  simp only [List.filterMap_cons, List.filterMap_nil]
  rw [show ([[0], [0], [0], [0]] : List Descriptor).getD 0 [] = [0]
      from by decide,
    show ([[0], [0], [0], [0]] : List Descriptor).getD 1 [] = [0]
      from by decide,
    show ([[0], [0], [0], [0]] : List Descriptor).getD 2 [] = [0]
      from by decide,
    show ([[0], [0], [0], [0]] : List Descriptor).getD 3 [] = [0]
      from by decide]
  simp only [hknn]
  rw [if_pos hcond, if_pos hcond, if_pos hcond, if_pos hcond]

/-! ## Claim C10 (code bug: resource leak in detect) -/

/-- C10: the detect loop leaks a native matrix.  Two candidates both pass
homography validation; the second scores higher (2 against 4/3), so
`detect` replaces `bestDetection` WITHOUT deleting the replaced best
candidate's homography matrix.  Across the call 14 native objects are
allocated and only 12 released, yet just one (the returned homography) is
handed back to the caller: one matrix is unreachable and never freed,
contradicting release-on-every-exit-path.  (The exception paths leak too:
`gray` in `extractFeatures`, `matches` in `matchFeatures`, and
`srcMat`/`dstMat` in `computeHomography` are not released when a native
call throws.) -/
theorem detect_leaks_replaced_homography :
    detectLedger frameDetTwoTargets (fun _ _ => some idMat) 1000 4 1
      (8 / 10) 0 [targetA, targetB] =
      (.success (mkDetection (8 / 10)
        ⟨[⟨0, 0, 1⟩, ⟨0, 0, 1⟩, ⟨0, 0, 1⟩, ⟨0, 0, 1⟩],
          [[0], [0], [0], [0]], 4⟩ targetB idMat), 14, 12) ∧
    14 - 12 = 2 ∧ (2 : Nat) ≠ 1 := by
  have hscoreA : candidateScore (8 / 10)
      ⟨[⟨0, 0, 1⟩, ⟨0, 0, 1⟩, ⟨0, 0, 1⟩, ⟨0, 0, 1⟩],
        [[0], [0], [0], [0]], 4⟩ targetA = 4 / 3 := by
    unfold candidateScore
    rw [show targetA.features =
      some ⟨[⟨0, 0, 1⟩, ⟨1, 0, 1⟩, ⟨2, 0, 1⟩], [[0], [255], [255]], 3⟩
      from rfl]
    dsimp only
    rw [matchFeatures_frameA]
    norm_num
  have hscoreB : candidateScore (8 / 10)
      ⟨[⟨0, 0, 1⟩, ⟨0, 0, 1⟩, ⟨0, 0, 1⟩, ⟨0, 0, 1⟩],
        [[0], [0], [0], [0]], 4⟩ targetB = 2 := by
    unfold candidateScore
    rw [show targetB.features =
      some ⟨[⟨0, 0, 1⟩, ⟨1, 0, 1⟩], [[0], [255]], 2⟩ from rfl]
    dsimp only
    rw [matchFeatures_frameB]
    norm_num
  have hstepA : detectStepLedger (fun _ _ => some idMat) 4 (8 / 10)
      ⟨[⟨0, 0, 1⟩, ⟨0, 0, 1⟩, ⟨0, 0, 1⟩, ⟨0, 0, 1⟩],
        [[0], [0], [0], [0]], 4⟩ ((none, 0), 2, 0) targetA =
      ((some (mkDetection (8 / 10)
          ⟨[⟨0, 0, 1⟩, ⟨0, 0, 1⟩, ⟨0, 0, 1⟩, ⟨0, 0, 1⟩],
            [[0], [0], [0], [0]], 4⟩ targetA idMat), 4 / 3), 8, 5) := by
    unfold detectStepLedger
    rw [show targetA.features =
      some ⟨[⟨0, 0, 1⟩, ⟨1, 0, 1⟩, ⟨2, 0, 1⟩], [[0], [255], [255]], 3⟩
      from rfl]
    dsimp only
    rw [if_neg (by decide)]
    unfold matchFeaturesLedger computeHomographyLedger
    dsimp only
    rw [matchFeatures_frameA]
    rw [if_neg (by decide)]
    rw [computeHomography_const_idMat _ _ _ (by decide)]
    dsimp only
    unfold getTargetCornersLedger
    dsimp only
    rw [hscoreA]
    rw [if_pos (by norm_num)]
  have hstepB : detectStepLedger (fun _ _ => some idMat) 4 (8 / 10)
      ⟨[⟨0, 0, 1⟩, ⟨0, 0, 1⟩, ⟨0, 0, 1⟩, ⟨0, 0, 1⟩],
        [[0], [0], [0], [0]], 4⟩
      ((some (mkDetection (8 / 10)
          ⟨[⟨0, 0, 1⟩, ⟨0, 0, 1⟩, ⟨0, 0, 1⟩, ⟨0, 0, 1⟩],
            [[0], [0], [0], [0]], 4⟩ targetA idMat), 4 / 3), 8, 5)
      targetB =
      ((some (mkDetection (8 / 10)
          ⟨[⟨0, 0, 1⟩, ⟨0, 0, 1⟩, ⟨0, 0, 1⟩, ⟨0, 0, 1⟩],
            [[0], [0], [0], [0]], 4⟩ targetB idMat), 2), 14, 10) := by
    unfold detectStepLedger
    rw [show targetB.features =
      some ⟨[⟨0, 0, 1⟩, ⟨1, 0, 1⟩], [[0], [255]], 2⟩ from rfl]
    dsimp only
    rw [if_neg (by decide)]
    unfold matchFeaturesLedger computeHomographyLedger
    dsimp only
    rw [matchFeatures_frameB]
    rw [if_neg (by decide)]
    rw [computeHomography_const_idMat _ _ _ (by decide)]
    dsimp only
    unfold getTargetCornersLedger
    dsimp only
    rw [hscoreB]
    rw [if_pos (by norm_num)]
  refine ⟨?_, by norm_num, by norm_num⟩
  unfold detectLedger
  rw [show extractFeaturesLedger frameDetTwoTargets 1000 1 0 =
    (⟨[⟨0, 0, 1⟩, ⟨0, 0, 1⟩, ⟨0, 0, 1⟩, ⟨0, 0, 1⟩],
      [[0], [0], [0], [0]], 4⟩, 2, 0) from by decide]
  dsimp only
  rw [if_neg (by decide)]
  rw [List.foldl_cons, hstepA, List.foldl_cons, hstepB, List.foldl_nil]
